import Mathlib

set_option maxHeartbeats 1000000

/-- Type of piece (src/rust/src/main.rs, `enum PieceType`): Developer jumps and
captures by jumping over to an empty square, Designer moves in an L shape and
captures by landing, ProductOwner moves one square and captures by landing. -/
inductive PieceType where
  | Developer
  | Designer
  | ProductOwner
deriving DecidableEq, Repr

/-- Player color (`enum PlayerColor`). -/
inductive PlayerColor where
  | White
  | Black
deriving DecidableEq, Repr

/-- `PlayerColor::opponent`. -/
def PlayerColor.opponent : PlayerColor → PlayerColor
  | .White => .Black
  | .Black => .White

/-- A chess piece (`struct Piece`). -/
structure Piece where
  piece_type : PieceType
  color : PlayerColor
deriving DecidableEq, Repr

/-- Details about a potential move (`struct MoveDetail`). -/
structure MoveDetail where
  to_r : Nat
  to_c : Nat
  is_capture : Bool
  jumped_piece_coord : Option (Nat × Nat)
deriving DecidableEq, Repr

/-- The game board (`struct Board`): the `Vec<Vec<Square>>` grid is embedded as
a total function from row/column indices to optional pieces. -/
structure Board where
  grid : Nat → Nat → Option Piece
  width : Nat
  height : Nat

/-- Assignment `self.grid[r][c] = v` embedded as a function override. -/
def Board.setSquare (b : Board) (r c : Nat) (v : Option Piece) : Board :=
  { b with grid := fun r' c' => if r' = r ∧ c' = c then v else b.grid r' c' }

/-- `Board::setup_pieces`: clears the grid, places White's pieces on row 0 and
then Black's pieces on the top row; since the Rust code writes Black's pieces
after White's, the Black placements win on any collision, which the if-chain
reflects by testing them first. -/
def Board.setup_pieces (b : Board) : Board :=
  { b with grid := fun r c =>
      if r = b.height - 1 ∧ c = b.width - 1 ∧ 1 ≤ b.width then some ⟨.ProductOwner, .Black⟩
      else if r = b.height - 1 ∧ c = b.width - 2 ∧ 2 ≤ b.width then some ⟨.Developer, .Black⟩
      else if r = b.height - 1 ∧ c = b.width - 3 ∧ 3 ≤ b.width then some ⟨.Designer, .Black⟩
      else if r = 0 ∧ c = 0 ∧ 1 ≤ b.width then some ⟨.ProductOwner, .White⟩
      else if r = 0 ∧ c = 1 ∧ 2 ≤ b.width then some ⟨.Developer, .White⟩
      else if r = 0 ∧ c = 2 ∧ 3 ≤ b.width then some ⟨.Designer, .White⟩
      else none }

/-- `Board::new`: an empty grid followed by `setup_pieces`. -/
def Board.new (width height : Nat) : Board :=
  Board.setup_pieces { grid := fun _ _ => none, width := width, height := height }

/-- `Board::get_piece`: bounds-checked lookup, `None` when out of bounds. -/
def Board.get_piece (b : Board) (r c : Nat) : Option Piece :=
  if r < b.height ∧ c < b.width then b.grid r c else none

/-- The 8 compass directions in the iteration order of the nested
`for dr in -1..=1 { for dc in -1..=1 { ... } }` loops, with `(0,0)` skipped. -/
def dirs8 : List (Int × Int) :=
  [(-1, -1), (-1, 0), (-1, 1), (0, -1), (0, 1), (1, -1), (1, 0), (1, 1)]

/-- The 8 L-shaped offsets of the Designer, in source order (`l_moves`). -/
def l_moves : List (Int × Int) :=
  [(1, 2), (1, -2), (-1, 2), (-1, -2), (2, 1), (2, -1), (-2, 1), (-2, -1)]

/-- Body shared by the ProductOwner and Designer arms of
`Board::calculate_valid_moves`: a landing move at offset `d` from the start
square, if the target is on the board and not occupied by a friendly piece. -/
def landing_target (b : Board) (piece : Piece) (start_r start_c : Nat) (d : Int × Int) :
    Option MoveDetail :=
  let to_r_signed := (start_r : Int) + d.1
  let to_c_signed := (start_c : Int) + d.2
  if 0 ≤ to_r_signed ∧ to_r_signed < (b.height : Int) ∧ 0 ≤ to_c_signed ∧ to_c_signed < (b.width : Int) then
    match b.grid to_r_signed.toNat to_c_signed.toNat with
    | some target_piece =>
      if target_piece.color ≠ piece.color then
        some ⟨to_r_signed.toNat, to_c_signed.toNat, true, none⟩
      else none
    | none => some ⟨to_r_signed.toNat, to_c_signed.toNat, false, none⟩
  else none

/-- Result of scanning the squares strictly between a Developer's origin and
target (`path_blocked_by_friendly` / `multiple_opponents_on_path` /
`jumped_piece_on_path` in the source loop). -/
inductive PathResult where
  | blocked
  | multiple
  | ok (jumped : Option (Nat × Nat))
deriving DecidableEq, Repr

/-- The `for step in 1..dist` path scan of the Developer arm. -/
def path_scan (b : Board) (col : PlayerColor) (start_r start_c : Nat) (dr dc : Int)
    (steps : List Nat) (jumped : Option (Nat × Nat)) : PathResult :=
  match steps with
  | [] => .ok jumped
  | step :: rest =>
    let path_r := ((start_r : Int) + dr * step).toNat
    let path_c := ((start_c : Int) + dc * step).toNat
    match b.grid path_r path_c with
    | none => path_scan b col start_r start_c dr dc rest jumped
    | some path_piece =>
      if path_piece.color = col then .blocked
      else
        match jumped with
        | some _ => .multiple
        | none => path_scan b col start_r start_c dr dc rest (some (path_r, path_c))

/-- Outcome of one iteration of the Developer's `for dist in 1..=3` loop:
break the direction, skip this distance (`continue`), or push a move. -/
inductive DevOutcome where
  | brk
  | skip
  | push (m : MoveDetail)
deriving DecidableEq, Repr

/-- One iteration of the Developer distance loop: break when the target is off
the board or occupied; skip when the path is blocked by a friendly piece or a
second opponent; otherwise push the move, a capture when the path scan
recorded a jumped opponent. -/
def dev_target (b : Board) (piece : Piece) (start_r start_c : Nat) (dr dc : Int) (dist : Nat) :
    DevOutcome :=
  let to_r_signed := (start_r : Int) + dr * dist
  let to_c_signed := (start_c : Int) + dc * dist
  if to_r_signed < 0 ∨ to_r_signed ≥ (b.height : Int) ∨ to_c_signed < 0 ∨ to_c_signed ≥ (b.width : Int) then
    .brk
  else
    match b.grid to_r_signed.toNat to_c_signed.toNat with
    | some _ => .brk
    | none =>
      match path_scan b piece.color start_r start_c dr dc (List.range' 1 (dist - 1)) none with
      | .blocked => .skip
      | .multiple => .skip
      | .ok jumped => .push ⟨to_r_signed.toNat, to_c_signed.toNat, jumped.isSome, jumped⟩

/-- The Developer's distance loop over a list of distances, with `break`
cutting the rest of the direction and `continue` moving to the next
distance. -/
def dev_run (b : Board) (piece : Piece) (start_r start_c : Nat) (dr dc : Int)
    (dists : List Nat) : List MoveDetail :=
  match dists with
  | [] => []
  | dist :: rest =>
    match dev_target b piece start_r start_c dr dc dist with
    | .brk => []
    | .skip => dev_run b piece start_r start_c dr dc rest
    | .push m => m :: dev_run b piece start_r start_c dr dc rest

/-- `Board::calculate_valid_moves`: dispatch on the piece type. -/
def Board.calculate_valid_moves (b : Board) (start_r start_c : Nat) (piece : Piece) :
    List MoveDetail :=
  match piece.piece_type with
  | .ProductOwner => dirs8.filterMap (landing_target b piece start_r start_c)
  | .Designer => l_moves.filterMap (landing_target b piece start_r start_c)
  | .Developer => dirs8.flatMap (fun d => dev_run b piece start_r start_c d.1 d.2 [1, 2, 3])

/-- Engine errors; one constructor per distinct `Err(...)` return site of the
source (the Rust code returns message `String`s, classified in spec section 7
into error kinds). -/
inductive GErr where
  | selectGameOver
  | selectNoPiece (r c : Nat)
  | selectWrongColor (pieceColor turn : PlayerColor)
  | moveGameOver
  | moveNoPiece (r c : Nat)
  | moveWrongColor
  | moveSameSquare
  | moveIllegalDest (p : Piece) (r c : Nat)
  | moveInternalDevCapture
deriving DecidableEq, Repr

/-- `Board::move_piece`: validations in source order, then the mutation. The
Rust method mutates `self` in place and returns a `Result`, embedded here as
returning the (possibly updated) board together with the result. -/
def Board.move_piece (b : Board) (from_r from_c to_r to_c : Nat)
    (current_player : PlayerColor) (valid_moves : List MoveDetail) :
    Board × Except GErr (Option Piece) :=
  match b.get_piece from_r from_c with
  | none => (b, .error (.moveNoPiece from_r from_c))
  | some moving_piece =>
    if moving_piece.color ≠ current_player then (b, .error .moveWrongColor)
    else if from_r = to_r ∧ from_c = to_c then (b, .error .moveSameSquare)
    else
      match valid_moves.find? (fun m => m.to_r == to_r && m.to_c == to_c) with
      | none => (b, .error (.moveIllegalDest moving_piece to_r to_c))
      | some valid_move_info =>
        let b1 := b.setSquare from_r from_c none
        if valid_move_info.is_capture then
          match moving_piece.piece_type with
          | .Developer =>
            match valid_move_info.jumped_piece_coord with
            | some jc =>
              let captured := b1.grid jc.1 jc.2
              let b2 := b1.setSquare jc.1 jc.2 none
              (b2.setSquare to_r to_c (some moving_piece), .ok captured)
            | none => (b1, .error .moveInternalDevCapture)
          | .Designer | .ProductOwner =>
            let captured := b1.grid to_r to_c
            let b2 := b1.setSquare to_r to_c none
            (b2.setSquare to_r to_c (some moving_piece), .ok captured)
        else
          (b1.setSquare to_r to_c (some moving_piece), .ok none)

/-- `struct GameState`. -/
structure GameState where
  board : Board
  current_player : PlayerColor
  selected_square_coords : Option (Nat × Nat)
  available_moves_for_selected : Option (List MoveDetail)
  game_over : Bool
  winner : Option PlayerColor

/-- `GameState::new`. -/
def GameState.new (width height : Nat) : GameState :=
  ⟨Board.new width height, .White, none, none, false, none⟩

/-- `GameState::switch_player`. -/
def GameState.switch_player (gs : GameState) : GameState :=
  { gs with current_player := gs.current_player.opponent,
            selected_square_coords := none,
            available_moves_for_selected := none }

/-- `GameState::select_piece` (console printing dropped). -/
def GameState.select_piece (gs : GameState) (r c : Nat) : GameState × Except GErr Unit :=
  if gs.game_over then (gs, .error .selectGameOver)
  else
    match gs.board.get_piece r c with
    | some piece =>
      if piece.color = gs.current_player then
        ({ gs with selected_square_coords := some (r, c),
                   available_moves_for_selected := some (gs.board.calculate_valid_moves r c piece) },
         .ok ())
      else (gs, .error (.selectWrongColor piece.color gs.current_player))
    | none => (gs, .error (.selectNoPiece r c))

/-- The `current_valid_moves` determination at the top of
`GameState::attempt_move`: reuse the cached list when the from-square matches
the selection (with the `unwrap_or_else` fallback), otherwise recompute for a
current-player piece or fail. -/
def GameState.determine_valid_moves (gs : GameState) (from_r from_c : Nat) :
    Except GErr (List MoveDetail) :=
  if gs.selected_square_coords = some (from_r, from_c) then
    .ok (match gs.available_moves_for_selected with
      | some moves => moves
      | none =>
        match gs.board.get_piece from_r from_c with
        | some p =>
          if p.color = gs.current_player then gs.board.calculate_valid_moves from_r from_c p
          else []
        | none => [])
  else
    match gs.board.get_piece from_r from_c with
    | some p =>
      if p.color = gs.current_player then
        .ok (gs.board.calculate_valid_moves from_r from_c p)
      else .error .moveWrongColor
    | none => .error (.moveNoPiece from_r from_c)

/-- `GameState::attempt_move` (console printing dropped): delegate to
`Board::move_piece`; on success set game over and winner when the captured
piece is a ProductOwner, and switch players only when the game is not over. -/
def GameState.attempt_move (gs : GameState) (from_r from_c to_r to_c : Nat) :
    GameState × Except GErr Unit :=
  if gs.game_over then (gs, .error .moveGameOver)
  else
    match gs.determine_valid_moves from_r from_c with
    | .error e => (gs, .error e)
    | .ok current_valid_moves =>
      match gs.board.move_piece from_r from_c to_r to_c gs.current_player current_valid_moves with
      | (b', .error e) => ({ gs with board := b' }, .error e)
      | (b', .ok captured) =>
        let gs1 : GameState := { gs with board := b' }
        let gs2 : GameState :=
          match captured with
          | some cp =>
            if cp.piece_type = .ProductOwner then
              { gs1 with game_over := true, winner := some gs1.current_player }
            else gs1
          | none => gs1
        (if gs2.game_over = false then gs2.switch_player else gs2, .ok ())

/-- Errors of the coordinate codec; one constructor per `Err` return site of
`algebraic_to_coords` (spec section 7 groups the first two as `FormatError`
and the last two as `RangeError`). -/
inductive CoordErr where
  | formatLen
  | formatRow
  | rangeRow
  | rangeCol
deriving DecidableEq, Repr

/-- Rust's `str::parse::<usize>` on the character list of the row suffix:
an optional leading plus sign, then one or more ASCII digits, failing on
anything else and on 64-bit overflow. -/
def parseUsize (cs : List Char) : Option Nat :=
  let digits := match cs with
    | c :: rest => if c = '+' then rest else cs
    | [] => []
  if digits.isEmpty then none
  else if digits.all Char.isDigit then
    let n := digits.foldl (fun acc c => acc * 10 + (c.toNat - 48)) 0
    if n < 18446744073709551616 then some n else none
  else none

/-- `algebraic_to_coords`: length check, first character uppercased and mapped
through `(col_char as u8).wrapping_sub(b'A')`, row suffix parsed as `usize`,
then the row and column range checks in source order. -/
def algebraic_to_coords (s : String) (board_height board_width : Nat) :
    Except CoordErr (Nat × Nat) :=
  if s.length < 2 then .error .formatLen
  else
    match s.data with
    | [] => .error .formatLen
    | col0 :: rest =>
      let col_char := col0.toUpper
      let col_idx := (col_char.toNat % 256 + 256 - 65) % 256
      match parseUsize rest with
      | none => .error .formatRow
      | some row_num =>
        if row_num = 0 ∨ row_num > board_height then .error .rangeRow
        else
          let row_idx := row_num - 1
          if col_idx ≥ board_width then .error .rangeCol
          else .ok (row_idx, col_idx)

/-- `coords_to_algebraic`: the letter `'A' + c` (with the `as u8` wrap of the
release build) followed by the decimal of `r + 1`. -/
def coords_to_algebraic (r c : Nat) (_board_height : Nat) : String :=
  String.singleton (Char.ofNat ((65 + c % 256) % 256)) ++ Nat.repr (r + 1)

/-- Number of ProductOwner pieces of a color on the board. -/
def royalCount (b : Board) (col : PlayerColor) : Nat :=
  Finset.sum (Finset.range b.height ×ˢ Finset.range b.width)
    (fun rc => if b.get_piece rc.1 rc.2 = some ⟨.ProductOwner, col⟩ then 1 else 0)

/-- Game states reachable from the initial state by successful operations. -/
inductive Reachable (w h : Nat) : GameState → Prop where
  | init : Reachable w h (GameState.new w h)
  | select_ok (gs : GameState) (r c : Nat) (gs' : GameState) :
      Reachable w h gs → gs.select_piece r c = (gs', .ok ()) → Reachable w h gs'
  | move_ok (gs : GameState) (from_r from_c to_r to_c : Nat) (gs' : GameState) :
      Reachable w h gs → gs.attempt_move from_r from_c to_r to_c = (gs', .ok ()) →
      Reachable w h gs'

/-- Spec section 7 classification: the two `Err` sites before the range checks
make up `FormatError`. -/
def CoordErr.isFormatError : CoordErr → Prop :=
  fun e => e = .formatLen ∨ e = .formatRow

/-- Spec section 7 classification: the row and column range `Err` sites make
up `RangeError`. -/
def CoordErr.isRangeError : CoordErr → Prop :=
  fun e => e = .rangeRow ∨ e = .rangeCol

/-- The index the code maps the column letter of a label to:
`(first char).to_ascii_uppercase() as u8` minus `b'A'` with wrap-around. -/
def colIndexOfLabel (s : String) : Nat :=
  match s.data with
  | [] => 0
  | c0 :: _ => (c0.toUpper.toNat % 256 + 256 - 65) % 256

/-- A piece of the given color occupies the square (raw grid access, as in the
Developer path scan). -/
def isFriendlyAt (b : Board) (col : PlayerColor) (r c : Nat) : Prop :=
  ∃ q, b.grid r c = some q ∧ q.color = col

/-- A piece of the opposite color occupies the square (raw grid access, as in
the Developer path scan). -/
def isOpponentAt (b : Board) (col : PlayerColor) (r c : Nat) : Prop :=
  ∃ q, b.grid r c = some q ∧ q.color ≠ col

instance (b : Board) (col : PlayerColor) (r c : Nat) : Decidable (isFriendlyAt b col r c) :=
  match hg : b.grid r c with
  | some q =>
    if hq : q.color = col then .isTrue ⟨q, hg, hq⟩
    else .isFalse (by
      rintro ⟨q', hq', hcol⟩
      rw [hg] at hq'
      cases hq'
      exact hq hcol)
  | none => .isFalse (by
      rintro ⟨q', hq', _⟩
      rw [hg] at hq'
      cases hq')

instance (b : Board) (col : PlayerColor) (r c : Nat) : Decidable (isOpponentAt b col r c) :=
  match hg : b.grid r c with
  | some q =>
    if hq : q.color = col then
      .isFalse (by
        rintro ⟨q', hq', hcol⟩
        rw [hg] at hq'
        cases hq'
        exact hcol hq)
    else .isTrue ⟨q, hg, hq⟩
  | none => .isFalse (by
      rintro ⟨q', hq', _⟩
      rw [hg] at hq'
      cases hq')

/-- A board with the two Royals adjacent, used to exercise a Royal capture. -/
def royal_capture_board : Board :=
  ((Board.new 6 6).setSquare 2 2 (some ⟨.ProductOwner, .White⟩)).setSquare 2 3
    (some ⟨.ProductOwner, .Black⟩)

/-- A game state on `royal_capture_board` with White to move. -/
def royal_capture_state : GameState :=
  ⟨royal_capture_board, .White, none, none, false, none⟩

/-- Like `royal_capture_state` but with the capturing Royal selected and its
moves cached. -/
def royal_capture_state_selected : GameState :=
  ⟨royal_capture_board, .White, some (2, 2),
    some (royal_capture_board.calculate_valid_moves 2 2 ⟨.ProductOwner, .White⟩), false, none⟩

/-- Invariant of reachable game states: the board keeps its dimensions, and
while the game is running there is exactly one Royal of each color and any
cached move list belongs to the selected square, which holds a piece of the
current player. -/
def StateInv (w h : Nat) (gs : GameState) : Prop :=
  gs.board.width = w ∧ gs.board.height = h ∧
  (gs.game_over = false →
    royalCount gs.board .White = 1 ∧ royalCount gs.board .Black = 1 ∧
    ∀ l, gs.available_moves_for_selected = some l →
      ∃ r c p, gs.selected_square_coords = some (r, c) ∧ gs.board.get_piece r c = some p ∧
        p.color = gs.current_player ∧ l = gs.board.calculate_valid_moves r c p)

lemma char_ofNat_toNat_small : ∀ n : Nat, 65 ≤ n → n ≤ 90 → (Char.ofNat n).toNat = n := by
  intro n h1 h2
  interval_cases n <;> rfl

lemma char_toUpper_def (d : Char) :
    d.toUpper = if d.toNat ≥ 97 ∧ d.toNat ≤ 122 then Char.ofNat (d.toNat - 32) else d := rfl

lemma char_toUpper_idem (c : Char) : c.toUpper.toUpper = c.toUpper := by
  by_cases h : c.toNat ≥ 97 ∧ c.toNat ≤ 122
  · have h2 : c.toUpper = Char.ofNat (c.toNat - 32) := by rw [char_toUpper_def, if_pos h]
    have h3 : (Char.ofNat (c.toNat - 32)).toNat = c.toNat - 32 :=
      char_ofNat_toNat_small _ (by omega) (by omega)
    rw [h2, char_toUpper_def, h3, if_neg (by omega)]
  · have h2 : c.toUpper = c := by rw [char_toUpper_def, if_neg h]
    rw [h2, h2]

lemma parseUsize_nil : parseUsize [] = none := rfl

lemma parseUsize_repr_small (n : Nat) (h1 : 1 ≤ n) (h2 : n ≤ 12) :
    parseUsize (Nat.repr n).data = some n := by
  interval_cases n <;> rfl

lemma letter_col_idx (c : Nat) (hc : c ≤ 11) :
    ((Char.ofNat ((65 + c % 256) % 256)).toUpper.toNat % 256 + 256 - 65) % 256 = c := by
  interval_cases c <;> rfl

lemma string_eq_of_data (s : String) (l : List Char) (h : s.data = l) : s = String.mk l := by
  cases s
  exact congrArg String.mk h

lemma algebraic_to_coords_cons (c0 : Char) (rest : List Char) (hgt wd : Nat) :
    algebraic_to_coords (String.mk (c0 :: rest)) hgt wd =
      (if rest.length + 1 < 2 then .error .formatLen
       else
         match parseUsize rest with
         | none => .error .formatRow
         | some row_num =>
           if row_num = 0 ∨ row_num > hgt then .error .rangeRow
           else if (c0.toUpper.toNat % 256 + 256 - 65) % 256 ≥ wd then .error .rangeCol
           else .ok (row_num - 1, (c0.toUpper.toNat % 256 + 256 - 65) % 256)) := rfl

lemma algebraic_to_coords_cons_parse (c0 : Char) (rest : List Char) (hgt wd n : Nat)
    (hne : rest ≠ []) (hp : parseUsize rest = some n) :
    algebraic_to_coords (String.mk (c0 :: rest)) hgt wd =
      (if n = 0 ∨ n > hgt then .error .rangeRow
       else if (c0.toUpper.toNat % 256 + 256 - 65) % 256 ≥ wd then .error .rangeCol
       else .ok (n - 1, (c0.toUpper.toNat % 256 + 256 - 65) % 256)) := by
  rw [algebraic_to_coords_cons]
  rw [if_neg (by have := List.length_pos.mpr hne; omega)]
  rw [hp]

lemma algebraic_to_coords_cons_noparse (c0 : Char) (rest : List Char) (hgt wd : Nat)
    (hne : rest ≠ []) (hp : parseUsize rest = none) :
    algebraic_to_coords (String.mk (c0 :: rest)) hgt wd = .error .formatRow := by
  rw [algebraic_to_coords_cons]
  rw [if_neg (by have := List.length_pos.mpr hne; omega)]
  rw [hp]

/-- C7: coordinate codec round-trip: for dimensions in [6,12] and in-range
coordinates, parsing the label produced by the formatter returns exactly the
original row and column. -/
theorem c7_codec_roundtrip (hgt wd r c : Nat) (hh1 : 6 ≤ hgt) (hh2 : hgt ≤ 12)
    (hw1 : 6 ≤ wd) (hw2 : wd ≤ 12) (hr : r < hgt) (hc : c < wd) :
    algebraic_to_coords (coords_to_algebraic r c hgt) hgt wd = .ok (r, c) := by
  have hdata : coords_to_algebraic r c hgt =
      String.mk (Char.ofNat ((65 + c % 256) % 256) :: (Nat.repr (r + 1)).data) := by
    apply string_eq_of_data
    simp [coords_to_algebraic, String.singleton]
  have hparse : parseUsize (Nat.repr (r + 1)).data = some (r + 1) :=
    parseUsize_repr_small (r + 1) (by omega) (by omega)
  have hne : (Nat.repr (r + 1)).data ≠ [] := by
    intro h
    rw [h, parseUsize_nil] at hparse
    cases hparse
  rw [hdata, algebraic_to_coords_cons_parse _ _ _ _ _ hne hparse]
  rw [letter_col_idx c (by omega)]
  rw [if_neg (by omega), if_neg (by omega)]
  rfl

/-- C7 witness: the round-trip at a concrete board size and coordinate. -/
theorem c7_codec_roundtrip_witness :
    algebraic_to_coords (coords_to_algebraic 2 3 8) 8 8 = .ok (2, 3) :=
  c7_codec_roundtrip 8 8 2 3 (by decide) (by decide) (by decide) (by decide)
    (by decide) (by decide)


lemma atc_toUpper_first (c0 : Char) (rest : List Char) (hgt wd : Nat) :
    algebraic_to_coords (String.mk (c0 :: rest)) hgt wd =
      algebraic_to_coords (String.mk (c0.toUpper :: rest)) hgt wd := by
  rw [algebraic_to_coords_cons, algebraic_to_coords_cons, char_toUpper_idem]

/-- C8: classification of the coordinate parser: a format error exactly when
the label is shorter than 2 characters or the numeric suffix fails to parse, a
range error exactly when the suffix parses but the row is 0 or exceeds the
height or the column letter maps to an index at least the width, success
exactly otherwise with value (row - 1, column index), and the column letter is
treated case-insensitively. -/
theorem c8_parse_classification (s : String) (hgt wd : Nat) (hh1 : 6 ≤ hgt) (hh2 : hgt ≤ 12)
    (hw1 : 6 ≤ wd) (hw2 : wd ≤ 12) :
    ((∃ e, algebraic_to_coords s hgt wd = .error e ∧ e.isFormatError) ↔
      s.length < 2 ∨ parseUsize (s.data.drop 1) = none)
    ∧ ((∃ e, algebraic_to_coords s hgt wd = .error e ∧ e.isRangeError) ↔
      2 ≤ s.length ∧ ∃ n, parseUsize (s.data.drop 1) = some n ∧
        (n = 0 ∨ n > hgt ∨ colIndexOfLabel s ≥ wd))
    ∧ (∀ p, algebraic_to_coords s hgt wd = .ok p ↔
      2 ≤ s.length ∧ ∃ n, parseUsize (s.data.drop 1) = some n ∧ 1 ≤ n ∧ n ≤ hgt ∧
        colIndexOfLabel s < wd ∧ p = (n - 1, colIndexOfLabel s))
    ∧ (∀ (c0 : Char) (rest : List Char),
      algebraic_to_coords (String.mk (c0 :: rest)) hgt wd =
        algebraic_to_coords (String.mk (c0.toUpper :: rest)) hgt wd) := by
  refine ⟨?_, ?_, ?_, fun c0 rest => atc_toUpper_first c0 rest hgt wd⟩ <;>
  · rcases hsd : s.data with _ | ⟨c0, rest⟩
    · have hs : s = String.mk [] := string_eq_of_data s _ hsd
      subst hs
      simp [algebraic_to_coords, parseUsize, CoordErr.isFormatError, CoordErr.isRangeError,
        String.length]
    · have hs : s = String.mk (c0 :: rest) := string_eq_of_data s _ hsd
      subst hs
      have hlen : (String.mk (c0 :: rest)).length = rest.length + 1 := rfl
      have hdrop : (String.mk (c0 :: rest)).data.drop 1 = rest := rfl
      have hcolidx : colIndexOfLabel (String.mk (c0 :: rest)) =
          (c0.toUpper.toNat % 256 + 256 - 65) % 256 := rfl
      rcases hrest : rest with _ | ⟨c1, rest'⟩
      · have heq : algebraic_to_coords (String.mk [c0]) hgt wd = .error .formatLen := rfl
        simp [heq, hlen, hdrop, hcolidx, parseUsize_nil, CoordErr.isFormatError,
          CoordErr.isRangeError, String.length]
      · rcases hp : parseUsize (c1 :: rest') with _ | n
        · have heq := algebraic_to_coords_cons_noparse c0 (c1 :: rest') hgt wd (by simp) hp
          simp [heq, hlen, hdrop, hcolidx, hp, CoordErr.isFormatError, CoordErr.isRangeError,
            String.length]
        · have heq := algebraic_to_coords_cons_parse c0 (c1 :: rest') hgt wd n (by simp) hp
          by_cases hrow : n = 0 ∨ n > hgt
          · rw [if_pos hrow] at heq
            try intro p
            constructor <;> intro hgoal <;>
              simp_all [CoordErr.isFormatError, CoordErr.isRangeError, String.length] <;>
              omega
          · rw [if_neg hrow] at heq
            by_cases hcol : (c0.toUpper.toNat % 256 + 256 - 65) % 256 ≥ wd
            · rw [if_pos hcol] at heq
              try intro p
              constructor <;> intro hgoal <;>
                simp_all [CoordErr.isFormatError, CoordErr.isRangeError, String.length] <;>
                omega
            · rw [if_neg hcol] at heq
              try intro p
              constructor <;> intro hgoal <;>
                simp_all [CoordErr.isFormatError, CoordErr.isRangeError, String.length] <;>
                omega

/-- C8 witness: the label A0 on a 6 by 6 board fails with a range error (the
suffix 0 parses, and the row check classifies it as out of range). -/
theorem c8_parse_classification_witness :
    ∃ e, algebraic_to_coords (String.mk ['A', '0']) 6 6 = .error e ∧ e.isRangeError :=
  (c8_parse_classification (String.mk ['A', '0']) 6 6 (by decide) (by decide) (by decide)
    (by decide)).2.1.mpr ⟨by decide, 0, rfl, Or.inl rfl⟩

/-- C2 counterexample: on the 8 wide, 6 high board the claim puts Black's
pieces in columns 0, 1, 2 of the top row, but column 0 of the top row is
empty and Black's Royal sits in the last column instead. -/
theorem c2_counterexample :
    (Board.new 8 6).get_piece 5 0 = none ∧
      (Board.new 8 6).get_piece 5 7 = some ⟨.ProductOwner, .Black⟩ :=
  ⟨rfl, rfl⟩

/-- C2 amended: for dimensions in [6,12], `Board::new` places White's Royal,
Runner (Developer) and Leaper (Designer) in columns 0, 1, 2 of row 0, and
Black's mirrored in columns width-1, width-2, width-3 of the top row, with all
other squares (and all out-of-bounds lookups) empty. -/
theorem c2_initial_layout_amended (w h : Nat) (hw1 : 6 ≤ w) (hw2 : w ≤ 12)
    (hh1 : 6 ≤ h) (hh2 : h ≤ 12) :
    (Board.new w h).get_piece 0 0 = some ⟨.ProductOwner, .White⟩ ∧
    (Board.new w h).get_piece 0 1 = some ⟨.Developer, .White⟩ ∧
    (Board.new w h).get_piece 0 2 = some ⟨.Designer, .White⟩ ∧
    (Board.new w h).get_piece (h - 1) (w - 1) = some ⟨.ProductOwner, .Black⟩ ∧
    (Board.new w h).get_piece (h - 1) (w - 2) = some ⟨.Developer, .Black⟩ ∧
    (Board.new w h).get_piece (h - 1) (w - 3) = some ⟨.Designer, .Black⟩ ∧
    (∀ r c, r < h → c < w →
      ¬((r = 0 ∧ c ≤ 2) ∨ (r = h - 1 ∧ w - 3 ≤ c)) →
      (Board.new w h).get_piece r c = none) ∧
    (∀ r c, r ≥ h ∨ c ≥ w → (Board.new w h).get_piece r c = none) := by
  refine ⟨?_, ?_, ?_, ?_, ?_, ?_, ?_, ?_⟩ <;>
    first
    | (simp only [Board.new, Board.setup_pieces, Board.get_piece]
       split_ifs <;>
         first
         | rfl
         | omega
         | (simp_all only [true_and, false_and, and_true, and_false, not_true,
              not_false_iff] <;> omega)
         | simp_all)
    | (intro r c h1 h2 h3
       simp only [Board.new, Board.setup_pieces, Board.get_piece]
       split_ifs <;>
         first
         | rfl
         | omega
         | (simp_all only [true_and, false_and, and_true, and_false, not_true,
              not_false_iff] <;> omega)
         | simp_all)
    | (intro r c h1
       simp only [Board.new, Board.setup_pieces, Board.get_piece]
       split_ifs <;>
         first
         | rfl
         | omega
         | (simp_all only [true_and, false_and, and_true, and_false, not_true,
              not_false_iff] <;> omega)
         | simp_all)

/-- C2 witness: the amended layout at the concrete 8 by 6 board. -/
theorem c2_initial_layout_amended_witness :
    (Board.new 8 6).get_piece 0 0 = some ⟨.ProductOwner, .White⟩ ∧
      (Board.new 8 6).get_piece 5 7 = some ⟨.ProductOwner, .Black⟩ := by
  have h := c2_initial_layout_amended 8 6 (by decide) (by decide) (by decide) (by decide)
  exact ⟨h.1, h.2.2.2.1⟩

lemma landing_target_eq_some (b : Board) (piece : Piece) (sr sc : Nat) (d : Int × Int)
    (m : MoveDetail) :
    landing_target b piece sr sc d = some m ↔
      (0 ≤ (sr : Int) + d.1 ∧ (sr : Int) + d.1 < (b.height : Int) ∧
        0 ≤ (sc : Int) + d.2 ∧ (sc : Int) + d.2 < (b.width : Int)) ∧
      ((b.grid ((sr : Int) + d.1).toNat ((sc : Int) + d.2).toNat = none ∧
          m = ⟨((sr : Int) + d.1).toNat, ((sc : Int) + d.2).toNat, false, none⟩) ∨
        (∃ q, b.grid ((sr : Int) + d.1).toNat ((sc : Int) + d.2).toNat = some q ∧
          q.color ≠ piece.color ∧
          m = ⟨((sr : Int) + d.1).toNat, ((sc : Int) + d.2).toNat, true, none⟩)) := by
  unfold landing_target
  dsimp only
  split_ifs with hin
  · rcases hg : b.grid ((sr : Int) + d.1).toNat ((sc : Int) + d.2).toNat with _ | q
    · simp [hg, hin, eq_comm]
    · by_cases hq : q.color = piece.color
      · simp [hg, hin, hq]
      · simp [hg, hin, hq, eq_comm]
        exact fun _ hcol => hq hcol.symm
  · simp [hin]

lemma mem_landing_filterMap_props (offs : List (Int × Int)) (b : Board) (piece : Piece)
    (sr sc : Nat) (m : MoveDetail)
    (h : m ∈ offs.filterMap (landing_target b piece sr sc)) :
    m.jumped_piece_coord = none ∧ m.to_r < b.height ∧ m.to_c < b.width ∧
      (m.is_capture = true → ∃ q, b.grid m.to_r m.to_c = some q ∧ q.color ≠ piece.color) ∧
      (m.is_capture = false → b.grid m.to_r m.to_c = none) := by
  rw [List.mem_filterMap] at h
  obtain ⟨d, _, hsome⟩ := h
  rw [landing_target_eq_some] at hsome
  obtain ⟨⟨h1, h2, h3, h4⟩, hcase⟩ := hsome
  rcases hcase with ⟨hg, hm⟩ | ⟨q, hg, hq, hm⟩ <;> subst hm
  · exact ⟨rfl, by dsimp only; omega, by dsimp only; omega, by simp, fun _ => hg⟩
  · exact ⟨rfl, by dsimp only; omega, by dsimp only; omega, fun _ => ⟨q, hg, hq⟩, by simp⟩

lemma calculate_valid_moves_po (b : Board) (sr sc : Nat) (col : PlayerColor) :
    b.calculate_valid_moves sr sc ⟨.ProductOwner, col⟩ =
      dirs8.filterMap (landing_target b ⟨.ProductOwner, col⟩ sr sc) := rfl

lemma calculate_valid_moves_designer (b : Board) (sr sc : Nat) (col : PlayerColor) :
    b.calculate_valid_moves sr sc ⟨.Designer, col⟩ =
      l_moves.filterMap (landing_target b ⟨.Designer, col⟩ sr sc) := rfl

lemma mem_landing_filterMap_iff (offs : List (Int × Int)) (b : Board) (piece : Piece)
    (sr sc : Nat) (m : MoveDetail) :
    m ∈ offs.filterMap (landing_target b piece sr sc) ↔
      ∃ d ∈ offs,
        0 ≤ (sr : Int) + d.1 ∧ (sr : Int) + d.1 < (b.height : Int) ∧
        0 ≤ (sc : Int) + d.2 ∧ (sc : Int) + d.2 < (b.width : Int) ∧
        m.to_r = ((sr : Int) + d.1).toNat ∧ m.to_c = ((sc : Int) + d.2).toNat ∧
        m.jumped_piece_coord = none ∧
        ((b.grid m.to_r m.to_c = none ∧ m.is_capture = false) ∨
          (∃ q, b.grid m.to_r m.to_c = some q ∧ q.color ≠ piece.color ∧ m.is_capture = true)) := by
  rw [List.mem_filterMap]
  constructor
  · rintro ⟨d, hd, hsome⟩
    rw [landing_target_eq_some] at hsome
    obtain ⟨⟨h1, h2, h3, h4⟩, hcase⟩ := hsome
    refine ⟨d, hd, h1, h2, h3, h4, ?_⟩
    rcases hcase with ⟨hg, hm⟩ | ⟨q, hg, hq, hm⟩ <;> subst hm
    · exact ⟨rfl, rfl, rfl, Or.inl ⟨hg, rfl⟩⟩
    · exact ⟨rfl, rfl, rfl, Or.inr ⟨q, hg, hq, rfl⟩⟩
  · rintro ⟨d, hd, h1, h2, h3, h4, hr, hc, hj, hcase⟩
    refine ⟨d, hd, ?_⟩
    rw [landing_target_eq_some]
    refine ⟨⟨h1, h2, h3, h4⟩, ?_⟩
    obtain ⟨mr, mc, mcap, mj⟩ := m
    simp only at hr hc hj
    subst hr
    subst hc
    subst hj
    rcases hcase with ⟨hg, hcap⟩ | ⟨q, hg, hq, hcap⟩ <;> simp only at hcap <;> subst hcap
    · exact Or.inl ⟨hg, rfl⟩
    · exact Or.inr ⟨q, hg, hq, rfl⟩

/-- C6: a Royal's legal moves are exactly the on-board squares at compass
distance 1 and a Leaper's exactly the on-board squares at the 8 knight
offsets, in each case included with non-capture exactly when the square is
empty and with capture exactly when it holds an opponent piece; squares
holding a same-color piece are never included. -/
theorem c6_royal_leaper_moves (b : Board) (sr sc : Nat) (col : PlayerColor) (m : MoveDetail) :
    (m ∈ b.calculate_valid_moves sr sc ⟨.ProductOwner, col⟩ ↔
      ∃ d ∈ dirs8,
        0 ≤ (sr : Int) + d.1 ∧ (sr : Int) + d.1 < (b.height : Int) ∧
        0 ≤ (sc : Int) + d.2 ∧ (sc : Int) + d.2 < (b.width : Int) ∧
        m.to_r = ((sr : Int) + d.1).toNat ∧ m.to_c = ((sc : Int) + d.2).toNat ∧
        m.jumped_piece_coord = none ∧
        ((b.grid m.to_r m.to_c = none ∧ m.is_capture = false) ∨
          (∃ q, b.grid m.to_r m.to_c = some q ∧ q.color ≠ col ∧ m.is_capture = true)))
    ∧ (m ∈ b.calculate_valid_moves sr sc ⟨.Designer, col⟩ ↔
      ∃ d ∈ l_moves,
        0 ≤ (sr : Int) + d.1 ∧ (sr : Int) + d.1 < (b.height : Int) ∧
        0 ≤ (sc : Int) + d.2 ∧ (sc : Int) + d.2 < (b.width : Int) ∧
        m.to_r = ((sr : Int) + d.1).toNat ∧ m.to_c = ((sc : Int) + d.2).toNat ∧
        m.jumped_piece_coord = none ∧
        ((b.grid m.to_r m.to_c = none ∧ m.is_capture = false) ∨
          (∃ q, b.grid m.to_r m.to_c = some q ∧ q.color ≠ col ∧ m.is_capture = true)))
    ∧ (m ∈ b.calculate_valid_moves sr sc ⟨.ProductOwner, col⟩ →
        ∀ q, b.get_piece m.to_r m.to_c = some q → q.color ≠ col)
    ∧ (m ∈ b.calculate_valid_moves sr sc ⟨.Designer, col⟩ →
        ∀ q, b.get_piece m.to_r m.to_c = some q → q.color ≠ col) := by
  have hexcl : ∀ (offs : List (Int × Int)) (pt : PieceType),
      m ∈ offs.filterMap (landing_target b ⟨pt, col⟩ sr sc) →
      ∀ q, b.get_piece m.to_r m.to_c = some q → q.color ≠ col := by
    intro offs pt hm q hq
    obtain ⟨_, hr, hc, hcap, hncap⟩ := mem_landing_filterMap_props offs b ⟨pt, col⟩ sr sc m hm
    have hgq : b.grid m.to_r m.to_c = some q := by
      rw [Board.get_piece, if_pos ⟨hr, hc⟩] at hq
      exact hq
    cases hcapval : m.is_capture
    · rw [hncap hcapval] at hgq
      cases hgq
    · obtain ⟨q', hq', hq'col⟩ := hcap hcapval
      rw [hq'] at hgq
      cases hgq
      exact hq'col
  exact ⟨by rw [calculate_valid_moves_po]; exact mem_landing_filterMap_iff dirs8 b _ sr sc m,
    by rw [calculate_valid_moves_designer]; exact mem_landing_filterMap_iff l_moves b _ sr sc m,
    by rw [calculate_valid_moves_po]; exact hexcl dirs8 .ProductOwner,
    by rw [calculate_valid_moves_designer]; exact hexcl l_moves .Designer⟩

/-- C6 witness: on the initial 6 by 6 board the White Royal at A1 may step to
the empty square B2, obtained from the characterization. -/
theorem c6_royal_leaper_moves_witness :
    (⟨1, 1, false, none⟩ : MoveDetail) ∈
      (Board.new 6 6).calculate_valid_moves 0 0 ⟨.ProductOwner, .White⟩ :=
  (c6_royal_leaper_moves (Board.new 6 6) 0 0 .White ⟨1, 1, false, none⟩).1.mpr
    ⟨(1, 1), by decide, by decide, by decide, by decide, by decide, by decide, by decide,
      by decide, Or.inl ⟨by decide, by decide⟩⟩

lemma calculate_valid_moves_dev (b : Board) (sr sc : Nat) (col : PlayerColor) :
    b.calculate_valid_moves sr sc ⟨.Developer, col⟩ =
      dirs8.flatMap (fun d => dev_run b ⟨.Developer, col⟩ sr sc d.1 d.2 [1, 2, 3]) := rfl

lemma dev_target_ne_brk (b : Board) (piece : Piece) (sr sc : Nat) (dr dc : Int) (dist : Nat) :
    dev_target b piece sr sc dr dc dist ≠ .brk ↔
      (0 ≤ (sr : Int) + dr * dist ∧ (sr : Int) + dr * dist < (b.height : Int) ∧
        0 ≤ (sc : Int) + dc * dist ∧ (sc : Int) + dc * dist < (b.width : Int)) ∧
      b.grid ((sr : Int) + dr * dist).toNat ((sc : Int) + dc * dist).toNat = none := by
  unfold dev_target
  dsimp only
  split_ifs with hout
  · constructor
    · intro hne
      exact absurd rfl hne
    · rintro ⟨hb, _⟩
      exact absurd hb (by omega)
  · rcases hg : b.grid ((sr : Int) + dr * dist).toNat ((sc : Int) + dc * dist).toNat with _ | q
    · have hb : 0 ≤ (sr : Int) + dr * dist ∧ (sr : Int) + dr * dist < (b.height : Int) ∧
          0 ≤ (sc : Int) + dc * dist ∧ (sc : Int) + dc * dist < (b.width : Int) := by omega
      rcases hps : path_scan b piece.color sr sc dr dc (List.range' 1 (dist - 1)) none with
        _ | _ | jumped <;> simp [hps, hg, hb]
    · simp [hg]

lemma dev_target_eq_push_iff (b : Board) (piece : Piece) (sr sc : Nat) (dr dc : Int)
    (dist : Nat) (m : MoveDetail) :
    dev_target b piece sr sc dr dc dist = .push m ↔
      (0 ≤ (sr : Int) + dr * dist ∧ (sr : Int) + dr * dist < (b.height : Int) ∧
        0 ≤ (sc : Int) + dc * dist ∧ (sc : Int) + dc * dist < (b.width : Int)) ∧
      b.grid ((sr : Int) + dr * dist).toNat ((sc : Int) + dc * dist).toNat = none ∧
      ∃ jumped, path_scan b piece.color sr sc dr dc (List.range' 1 (dist - 1)) none = .ok jumped ∧
        m = ⟨((sr : Int) + dr * dist).toNat, ((sc : Int) + dc * dist).toNat,
          jumped.isSome, jumped⟩ := by
  unfold dev_target
  dsimp only
  split_ifs with hout
  · constructor
    · intro h
      exact h.elim
    · rintro ⟨hb, _⟩
      exact absurd hb (by omega)
  · rcases hg : b.grid ((sr : Int) + dr * dist).toNat ((sc : Int) + dc * dist).toNat with _ | q
    · have hb : 0 ≤ (sr : Int) + dr * dist ∧ (sr : Int) + dr * dist < (b.height : Int) ∧
          0 ≤ (sc : Int) + dc * dist ∧ (sc : Int) + dc * dist < (b.width : Int) := by omega
      rcases hps : path_scan b piece.color sr sc dr dc (List.range' 1 (dist - 1)) none with
        _ | _ | jumped <;> simp [hps, hg, hb, eq_comm]
    · simp [hg]

lemma path_scan_empty (b : Board) (col : PlayerColor) (sr sc : Nat) (dr dc : Int)
    (steps : List Nat) (jumped : Option (Nat × Nat))
    (h : ∀ s ∈ steps, b.grid ((sr : Int) + dr * s).toNat ((sc : Int) + dc * s).toNat = none) :
    path_scan b col sr sc dr dc steps jumped = .ok jumped := by
  induction steps with
  | nil => rfl
  | cons s rest ih =>
    unfold path_scan
    dsimp only
    rw [h s (List.mem_cons_self s rest)]
    exact ih (fun x hx => h x (List.mem_cons_of_mem s hx))

lemma mem_dev_run_three (b : Board) (piece : Piece) (sr sc : Nat) (dr dc : Int)
    (m : MoveDetail) :
    m ∈ dev_run b piece sr sc dr dc [1, 2, 3] ↔
      dev_target b piece sr sc dr dc 1 = .push m ∨
      (dev_target b piece sr sc dr dc 1 ≠ .brk ∧ dev_target b piece sr sc dr dc 2 = .push m) ∨
      (dev_target b piece sr sc dr dc 1 ≠ .brk ∧ dev_target b piece sr sc dr dc 2 ≠ .brk ∧
        dev_target b piece sr sc dr dc 3 = .push m) := by
  rcases h1 : dev_target b piece sr sc dr dc 1 with _ | _ | m1 <;>
    rcases h2 : dev_target b piece sr sc dr dc 2 with _ | _ | m2 <;>
      rcases h3 : dev_target b piece sr sc dr dc 3 with _ | _ | m3 <;>
        simp [dev_run, h1, h2, h3, eq_comm] <;> tauto



lemma mem_dev_moves_strong (b : Board) (sr sc : Nat) (col : PlayerColor) (m : MoveDetail)
    (hm : m ∈ b.calculate_valid_moves sr sc ⟨.Developer, col⟩) :
    ∃ d ∈ dirs8, ∃ k : Nat, 1 ≤ k ∧ k ≤ 3 ∧
      (∀ j ∈ List.range' 1 k,
        (0 ≤ (sr : Int) + d.1 * j ∧ (sr : Int) + d.1 * j < (b.height : Int) ∧
          0 ≤ (sc : Int) + d.2 * j ∧ (sc : Int) + d.2 * j < (b.width : Int)) ∧
        b.grid ((sr : Int) + d.1 * j).toNat ((sc : Int) + d.2 * j).toNat = none) ∧
      m = ⟨((sr : Int) + d.1 * k).toNat, ((sc : Int) + d.2 * k).toNat, false, none⟩ := by
  rw [calculate_valid_moves_dev, List.mem_flatMap] at hm
  obtain ⟨d, hd, hmem⟩ := hm
  rw [mem_dev_run_three] at hmem
  have key : ∀ k : Nat, 1 ≤ k → k ≤ 3 →
      (∀ j, 1 ≤ j → j < k → dev_target b ⟨.Developer, col⟩ sr sc d.1 d.2 j ≠ .brk) →
      dev_target b ⟨.Developer, col⟩ sr sc d.1 d.2 k = .push m →
      ∃ k' : Nat, 1 ≤ k' ∧ k' ≤ 3 ∧
        (∀ j ∈ List.range' 1 k',
          (0 ≤ (sr : Int) + d.1 * j ∧ (sr : Int) + d.1 * j < (b.height : Int) ∧
            0 ≤ (sc : Int) + d.2 * j ∧ (sc : Int) + d.2 * j < (b.width : Int)) ∧
          b.grid ((sr : Int) + d.1 * j).toNat ((sc : Int) + d.2 * j).toNat = none) ∧
        m = ⟨((sr : Int) + d.1 * k').toNat, ((sc : Int) + d.2 * k').toNat, false, none⟩ := by
    intro k hk1 hk3 hpre hpush
    rw [dev_target_eq_push_iff] at hpush
    obtain ⟨hb, hempty, jumped, hps, hmeq⟩ := hpush
    have htargets : ∀ j ∈ List.range' 1 k,
        (0 ≤ (sr : Int) + d.1 * j ∧ (sr : Int) + d.1 * j < (b.height : Int) ∧
          0 ≤ (sc : Int) + d.2 * j ∧ (sc : Int) + d.2 * j < (b.width : Int)) ∧
        b.grid ((sr : Int) + d.1 * j).toNat ((sc : Int) + d.2 * j).toNat = none := by
      intro j hj
      rw [List.mem_range'_1] at hj
      rcases Nat.lt_or_ge j k with hjk | hjk
      · have hne := hpre j hj.1 hjk
        rw [dev_target_ne_brk] at hne
        exact hne
      · have hjeq : j = k := by omega
        subst hjeq
        exact ⟨hb, hempty⟩
    have hpath : ∀ s ∈ List.range' 1 (k - 1),
        b.grid ((sr : Int) + d.1 * s).toNat ((sc : Int) + d.2 * s).toNat = none := by
      intro s hs
      rw [List.mem_range'_1] at hs
      exact (htargets s (by rw [List.mem_range'_1]; omega)).2
    have hps0 : path_scan b (⟨.Developer, col⟩ : Piece).color sr sc d.1 d.2
        (List.range' 1 (k - 1)) none = .ok none :=
      path_scan_empty b _ sr sc d.1 d.2 _ none hpath
    rw [hps0] at hps
    have hj : jumped = none := by
      cases hps
      rfl
    subst hj
    subst hmeq
    exact ⟨k, hk1, hk3, htargets, rfl⟩
  rcases hmem with hp | ⟨hne1, hp⟩ | ⟨hne1, hne2, hp⟩
  · obtain ⟨k', h⟩ := key 1 (by omega) (by omega)
      (fun j hj1 hj2 => absurd (by omega : ¬(1 ≤ j ∧ j < 1)) (by simp [hj1, hj2])) hp
    exact ⟨d, hd, k', h⟩
  · obtain ⟨k', h⟩ := key 2 (by omega) (by omega)
      (fun j hj1 hj2 => by
        have : j = 1 := by omega
        subst this
        exact hne1) hp
    exact ⟨d, hd, k', h⟩
  · obtain ⟨k', h⟩ := key 3 (by omega) (by omega)
      (fun j hj1 hj2 => by
        rcases (by omega : j = 1 ∨ j = 2) with h | h <;> subst h
        · exact hne1
        · exact hne2) hp
    exact ⟨d, hd, k', h⟩

lemma mem_dev_moves_props (b : Board) (sr sc : Nat) (col : PlayerColor) (m : MoveDetail)
    (hm : m ∈ b.calculate_valid_moves sr sc ⟨.Developer, col⟩) :
    m.is_capture = false ∧ m.jumped_piece_coord = none ∧
      b.grid m.to_r m.to_c = none ∧ m.to_r < b.height ∧ m.to_c < b.width := by
  obtain ⟨d, _, k, hk1, hk3, htargets, hmeq⟩ := mem_dev_moves_strong b sr sc col m hm
  have hk := htargets k (by rw [List.mem_range'_1]; omega)
  subst hmeq
  exact ⟨rfl, rfl, hk.2, by have := hk.1; dsimp only; omega, by have := hk.1; dsimp only; omega⟩

lemma dev_moves_of_targets (b : Board) (sr sc : Nat) (col : PlayerColor) (d : Int × Int)
    (hd : d ∈ dirs8) (k : Nat) (hk1 : 1 ≤ k) (hk3 : k ≤ 3)
    (htargets : ∀ j ∈ List.range' 1 k,
      (0 ≤ (sr : Int) + d.1 * j ∧ (sr : Int) + d.1 * j < (b.height : Int) ∧
        0 ≤ (sc : Int) + d.2 * j ∧ (sc : Int) + d.2 * j < (b.width : Int)) ∧
      b.grid ((sr : Int) + d.1 * j).toNat ((sc : Int) + d.2 * j).toNat = none) :
    (⟨((sr : Int) + d.1 * k).toNat, ((sc : Int) + d.2 * k).toNat, false, none⟩ : MoveDetail) ∈
      b.calculate_valid_moves sr sc ⟨.Developer, col⟩ := by
  rw [calculate_valid_moves_dev, List.mem_flatMap]
  refine ⟨d, hd, ?_⟩
  rw [mem_dev_run_three]
  have hnobrk : ∀ j, 1 ≤ j → j < k →
      dev_target b ⟨.Developer, col⟩ sr sc d.1 d.2 j ≠ .brk := by
    intro j h1 h2
    rw [dev_target_ne_brk]
    exact htargets j (by rw [List.mem_range'_1]; omega)
  have hpush : dev_target b ⟨.Developer, col⟩ sr sc d.1 d.2 k =
      .push ⟨((sr : Int) + d.1 * k).toNat, ((sc : Int) + d.2 * k).toNat, false, none⟩ := by
    rw [dev_target_eq_push_iff]
    have hk := htargets k (by rw [List.mem_range'_1]; omega)
    refine ⟨hk.1, hk.2, none, ?_, rfl⟩
    apply path_scan_empty
    intro s hs
    rw [List.mem_range'_1] at hs
    exact (htargets s (by rw [List.mem_range'_1]; omega)).2
  interval_cases k
  · exact Or.inl hpush
  · exact Or.inr (Or.inl ⟨hnobrk 1 (by omega) (by omega), hpush⟩)
  · exact Or.inr (Or.inr ⟨hnobrk 1 (by omega) (by omega), hnobrk 2 (by omega) (by omega),
      hpush⟩)

/-- C3: a Runner's (Developer's) legal moves are characterized per direction
and distance: distance k in a direction is generated exactly when every target
at distances 1..k is on the board and empty (the break condition), the strict
path holds no friendly piece and at most one opponent, with exactly one
opponent on the path giving a capture whose jumped coordinate is that square
and zero opponents giving a non-capture without a jumped coordinate; moreover
every generated destination is an empty on-board square, every capture records
an opponent-occupied jumped square and every non-capture records none. -/
theorem c3_runner_move_generation (b : Board) (sr sc : Nat) (col : PlayerColor)
    (m : MoveDetail) (hsr : sr < b.height) (hsc : sc < b.width) :
    (m ∈ b.calculate_valid_moves sr sc ⟨.Developer, col⟩ ↔
      ∃ d ∈ dirs8, ∃ k ∈ ([1, 2, 3] : List Nat),
        (∀ j ∈ List.range' 1 k,
          (0 ≤ (sr : Int) + d.1 * j ∧ (sr : Int) + d.1 * j < (b.height : Int) ∧
            0 ≤ (sc : Int) + d.2 * j ∧ (sc : Int) + d.2 * j < (b.width : Int)) ∧
          b.grid ((sr : Int) + d.1 * j).toNat ((sc : Int) + d.2 * j).toNat = none) ∧
        (∀ j ∈ List.range' 1 (k - 1),
          ¬isFriendlyAt b col ((sr : Int) + d.1 * j).toNat ((sc : Int) + d.2 * j).toNat) ∧
        (((List.range' 1 (k - 1)).filter (fun (j : Nat) =>
            decide (isOpponentAt b col ((sr : Int) + d.1 * j).toNat
              ((sc : Int) + d.2 * j).toNat)) = [] ∧
          m = ⟨((sr : Int) + d.1 * k).toNat, ((sc : Int) + d.2 * k).toNat, false, none⟩) ∨
        (∃ j : Nat, (List.range' 1 (k - 1)).filter (fun (j' : Nat) =>
            decide (isOpponentAt b col ((sr : Int) + d.1 * j').toNat
              ((sc : Int) + d.2 * j').toNat)) = [j] ∧
          isOpponentAt b col ((sr : Int) + d.1 * j).toNat ((sc : Int) + d.2 * j).toNat ∧
          m = ⟨((sr : Int) + d.1 * k).toNat, ((sc : Int) + d.2 * k).toNat, true,
            some (((sr : Int) + d.1 * j).toNat, ((sc : Int) + d.2 * j).toNat)⟩)))
    ∧ (m ∈ b.calculate_valid_moves sr sc ⟨.Developer, col⟩ →
        b.grid m.to_r m.to_c = none ∧ m.to_r < b.height ∧ m.to_c < b.width)
    ∧ (m ∈ b.calculate_valid_moves sr sc ⟨.Developer, col⟩ → m.is_capture = true →
        ∃ jr jc, m.jumped_piece_coord = some (jr, jc) ∧ isOpponentAt b col jr jc)
    ∧ (m ∈ b.calculate_valid_moves sr sc ⟨.Developer, col⟩ → m.is_capture = false →
        m.jumped_piece_coord = none) := by
  refine ⟨⟨?_, ?_⟩, ?_, ?_, ?_⟩
  · intro hm
    obtain ⟨d, hd, k, hk1, hk3, htargets, hmeq⟩ := mem_dev_moves_strong b sr sc col m hm
    refine ⟨d, hd, k, by simp; omega, htargets, ?_, ?_⟩
    · intro j hj
      rw [List.mem_range'_1] at hj
      rintro ⟨q, hq, _⟩
      rw [(htargets j (by rw [List.mem_range'_1]; omega)).2] at hq
      cases hq
    · left
      refine ⟨List.filter_eq_nil_iff.mpr ?_, hmeq⟩
      intro j hj
      rw [List.mem_range'_1] at hj
      rw [decide_eq_true_iff]
      rintro ⟨q, hq, _⟩
      rw [(htargets j (by rw [List.mem_range'_1]; omega)).2] at hq
      cases hq
  · rintro ⟨d, hd, k, hk, htargets, _, hcase⟩
    have hk13 : 1 ≤ k ∧ k ≤ 3 := by
      simp at hk
      omega
    rcases hcase with ⟨_, hmeq⟩ | ⟨j, hfil, hopp, _⟩
    · subst hmeq
      exact dev_moves_of_targets b sr sc col d hd k hk13.1 hk13.2 htargets
    · have hjmem : j ∈ (List.range' 1 (k - 1)).filter (fun (j' : Nat) =>
          decide (isOpponentAt b col ((sr : Int) + d.1 * j').toNat
            ((sc : Int) + d.2 * j').toNat)) := by
        rw [hfil]
        exact List.mem_singleton.mpr rfl
      have hj := (List.mem_filter.mp hjmem).1
      rw [List.mem_range'_1] at hj
      obtain ⟨q, hq, _⟩ := hopp
      rw [(htargets j (by rw [List.mem_range'_1]; omega)).2] at hq
      cases hq
  · intro hm
    have := mem_dev_moves_props b sr sc col m hm
    exact ⟨this.2.2.1, this.2.2.2.1, this.2.2.2.2⟩
  · intro hm hcap
    have := mem_dev_moves_props b sr sc col m hm
    rw [this.1] at hcap
    cases hcap
  · intro hm _
    exact (mem_dev_moves_props b sr sc col m hm).2.1

/-- C3 witness: on the initial 6 by 6 board the White Runner at B1 reaches the
empty square B4 at distance 3 straight up. -/
theorem c3_runner_move_generation_witness :
    (⟨3, 1, false, none⟩ : MoveDetail) ∈
      (Board.new 6 6).calculate_valid_moves 0 1 ⟨.Developer, .White⟩ :=
  (c3_runner_move_generation (Board.new 6 6) 0 1 .White ⟨3, 1, false, none⟩ (by decide)
    (by decide)).1.mpr
    ⟨(1, 0), by decide, 3, by decide, by decide, by decide, Or.inl ⟨by decide, by decide⟩⟩

/-- C1 counterexample: a crafted valid-moves list marking a Developer move as
a capture with no jumped coordinate makes `move_piece` return the internal
error only after clearing the source square, so the grid is mutated on an
error return. -/
theorem c1_counterexample :
    ((Board.new 6 6).move_piece 0 1 2 1 .White [⟨2, 1, true, none⟩]).2 =
        .error .moveInternalDevCapture ∧
      ((Board.new 6 6).move_piece 0 1 2 1 .White [⟨2, 1, true, none⟩]).1.get_piece 0 1 = none ∧
      (Board.new 6 6).get_piece 0 1 = some ⟨.Developer, .White⟩ :=
  ⟨rfl, rfl, rfl⟩

/-- C1 amended: on each of the four validation failures (no piece, wrong
color, same square, illegal destination) the grid is completely unchanged; on
the internal Developer-capture-without-coordinate error the source square has
already been cleared and only it differs. -/
theorem c1_move_piece_atomicity_amended (b : Board) (from_r from_c to_r to_c : Nat)
    (cur : PlayerColor) (vm : List MoveDetail) (b' : Board) (e : GErr)
    (h : b.move_piece from_r from_c to_r to_c cur vm = (b', .error e)) :
    (e ≠ .moveInternalDevCapture → b' = b) ∧
    (e = .moveInternalDevCapture →
      b'.grid from_r from_c = none ∧
      ∀ r c, ¬(r = from_r ∧ c = from_c) → b'.grid r c = b.grid r c) := by
  unfold Board.move_piece at h
  rcases hg : b.get_piece from_r from_c with _ | p
  · rw [hg] at h
    injection h with hb he
    subst hb
    injection he with he
    subst he
    exact ⟨fun _ => rfl, fun hc => by cases hc⟩
  · rw [hg] at h
    dsimp only at h
    by_cases hcol : p.color = cur
    · rw [if_neg (show ¬(p.color ≠ cur) from fun hne => hne hcol)] at h
      by_cases hft : from_r = to_r ∧ from_c = to_c
      · rw [if_pos hft] at h
        injection h with hb he
        subst hb
        injection he with he
        subst he
        exact ⟨fun _ => rfl, fun hc => by cases hc⟩
      · rw [if_neg hft] at h
        rcases hfind : vm.find? (fun m => m.to_r == to_r && m.to_c == to_c) with _ | mi
        · rw [hfind] at h
          injection h with hb he
          subst hb
          injection he with he
          subst he
          exact ⟨fun _ => rfl, fun hc => by cases hc⟩
        · rw [hfind] at h
          dsimp only at h
          cases hcapv : mi.is_capture
          · rw [hcapv] at h
            rw [if_neg (by simp)] at h
            injection h with hb he
            injection he
          · rw [hcapv] at h
            rw [if_pos rfl] at h
            rcases hpt : p.piece_type with _ | _ | _
            · rw [hpt] at h
              dsimp only at h
              rcases hj : mi.jumped_piece_coord with _ | jc
              · rw [hj] at h
                injection h with hb he
                subst hb
                injection he with he
                subst he
                refine ⟨fun hne => absurd rfl hne, fun _ => ⟨?_, ?_⟩⟩
                · simp [Board.setSquare]
                · intro r c hne
                  simp only [Board.setSquare]
                  rw [if_neg hne]
              · rw [hj] at h
                injection h with hb he
                injection he
            · rw [hpt] at h
              injection h with hb he
              injection he
            · rw [hpt] at h
              injection h with hb he
              injection he
    · rw [if_pos hcol] at h
      injection h with hb he
      subst hb
      injection he with he
      subst he
      exact ⟨fun _ => rfl, fun hc => by cases hc⟩

/-- C1 witness: a wrong-color validation failure leaves the board unchanged. -/
theorem c1_move_piece_atomicity_amended_witness :
    ((Board.new 6 6).move_piece 0 1 2 1 .Black []).1 = Board.new 6 6 :=
  (c1_move_piece_atomicity_amended (Board.new 6 6) 0 1 2 1 .Black [] _ _ rfl).1 (by decide)


/-- C10: select succeeds exactly on a current-player piece when the game is
not over (caching the possibly empty move list and recording the selection),
and fails with the game-over, no-piece (also for out-of-bounds squares, which
read as empty) or wrong-color error otherwise, leaving the state unchanged on
every failure. -/
theorem c10_select_piece (gs : GameState) (r c : Nat) :
    (gs.game_over = true → gs.select_piece r c = (gs, .error .selectGameOver))
    ∧ (gs.game_over = false → gs.board.get_piece r c = none →
        gs.select_piece r c = (gs, .error (.selectNoPiece r c)))
    ∧ (∀ p, gs.game_over = false → gs.board.get_piece r c = some p →
        p.color ≠ gs.current_player →
        gs.select_piece r c = (gs, .error (.selectWrongColor p.color gs.current_player)))
    ∧ (∀ p, gs.game_over = false → gs.board.get_piece r c = some p →
        p.color = gs.current_player →
        gs.select_piece r c =
          ({ gs with selected_square_coords := some (r, c),
                     available_moves_for_selected :=
                       some (gs.board.calculate_valid_moves r c p) }, .ok ()))
    ∧ (r ≥ gs.board.height ∨ c ≥ gs.board.width → gs.board.get_piece r c = none) := by
  refine ⟨?_, ?_, ?_, ?_, ?_⟩
  · intro hgo
    unfold GameState.select_piece
    rw [if_pos hgo]
  · intro hgo hnone
    unfold GameState.select_piece
    rw [if_neg (by simp [hgo]), hnone]
  · intro p hgo hsome hcol
    unfold GameState.select_piece
    rw [if_neg (by simp [hgo]), hsome]
    dsimp only
    rw [if_neg hcol]
  · intro p hgo hsome hcol
    unfold GameState.select_piece
    rw [if_neg (by simp [hgo]), hsome]
    dsimp only
    rw [if_pos hcol]
  · intro hout
    unfold Board.get_piece
    rw [if_neg (by omega)]

/-- C10 witness: selecting the White Royal at A1 in the fresh 6 by 6 game
succeeds and caches its move list. -/
theorem c10_select_piece_witness :
    (GameState.new 6 6).select_piece 0 0 =
      ({ GameState.new 6 6 with selected_square_coords := some (0, 0),
                                 available_moves_for_selected :=
                                   some ((GameState.new 6 6).board.calculate_valid_moves 0 0
                                     ⟨.ProductOwner, .White⟩) }, .ok ()) :=
  (c10_select_piece (GameState.new 6 6) 0 0).2.2.2.1 ⟨.ProductOwner, .White⟩ rfl rfl rfl

lemma attempt_move_ok_decompose (gs : GameState) (f_r f_c t_r t_c : Nat)
    (cvm : List MoveDetail) (b' : Board) (cap : Option Piece) (gs' : GameState)
    (hgo : gs.game_over = false)
    (hdet : gs.determine_valid_moves f_r f_c = .ok cvm)
    (hmv : gs.board.move_piece f_r f_c t_r t_c gs.current_player cvm = (b', .ok cap))
    (hatt : gs.attempt_move f_r f_c t_r t_c = (gs', .ok ())) :
    ((∃ q, cap = some q ∧ q.piece_type = .ProductOwner) →
      gs' = { gs with board := b', game_over := true, winner := some gs.current_player })
    ∧ ((∀ q, cap = some q → q.piece_type ≠ .ProductOwner) →
      gs' = { gs with board := b', current_player := gs.current_player.opponent,
                      selected_square_coords := none,
                      available_moves_for_selected := none }) := by
  unfold GameState.attempt_move at hatt
  rw [if_neg (by simp [hgo]), hdet] at hatt
  dsimp only at hatt
  rw [hmv] at hatt
  dsimp only at hatt
  rcases cap with _ | q
  · dsimp only at hatt
    rw [if_pos hgo] at hatt
    injection hatt with hgs _
    constructor
    · rintro ⟨q, hq, _⟩
      cases hq
    · intro _
      exact hgs.symm
  · dsimp only at hatt
    by_cases hqt : q.piece_type = .ProductOwner
    · rw [if_pos hqt] at hatt
      rw [if_neg (by simp)] at hatt
      injection hatt with hgs _
      constructor
      · intro _
        exact hgs.symm
      · intro hnr
        exact absurd hqt (hnr q rfl)
    · rw [if_neg hqt] at hatt
      rw [if_pos hgo] at hatt
      injection hatt with hgs _
      constructor
      · rintro ⟨q', hq', hq'pt⟩
        cases hq'
        exact absurd hq'pt hqt
      · intro _
        exact hgs.symm

/-- C4: capturing a Royal transitions the state to game over with the mover as
winner; in a game-over state every select and every attempt fails with the
game-over error leaving the state unchanged; and a fresh state (restart) is
in-progress with White to move and nothing selected. -/
theorem c4_royal_capture_ends_game :
    (∀ (gs : GameState) (f_r f_c t_r t_c : Nat) (cvm : List MoveDetail) (b' : Board)
      (q : Piece) (gs' : GameState),
      gs.game_over = false →
      gs.determine_valid_moves f_r f_c = .ok cvm →
      gs.board.move_piece f_r f_c t_r t_c gs.current_player cvm = (b', .ok (some q)) →
      q.piece_type = .ProductOwner →
      gs.attempt_move f_r f_c t_r t_c = (gs', .ok ()) →
      gs'.game_over = true ∧ gs'.winner = some gs.current_player)
    ∧ (∀ (gs : GameState) (r c : Nat), gs.game_over = true →
        gs.select_piece r c = (gs, .error .selectGameOver))
    ∧ (∀ (gs : GameState) (f_r f_c t_r t_c : Nat), gs.game_over = true →
        gs.attempt_move f_r f_c t_r t_c = (gs, .error .moveGameOver))
    ∧ (∀ w h : Nat, GameState.new w h = ⟨Board.new w h, .White, none, none, false, none⟩) := by
  refine ⟨?_, ?_, ?_, fun w h => rfl⟩
  · intro gs f_r f_c t_r t_c cvm b' q gs' hgo hdet hmv hq hatt
    have hd := (attempt_move_ok_decompose gs f_r f_c t_r t_c cvm b' (some q) gs' hgo hdet hmv
      hatt).1 ⟨q, rfl, hq⟩
    rw [hd]
    exact ⟨rfl, rfl⟩
  · intro gs r c hgo
    unfold GameState.select_piece
    rw [if_pos hgo]
  · intro gs f_r f_c t_r t_c hgo
    unfold GameState.attempt_move
    rw [if_pos hgo]

/-- C4 witness: White's Royal captures the adjacent Black Royal; the game ends
with White as winner, and a subsequent select fails with the game-over
error. -/
theorem c4_royal_capture_ends_game_witness :
    (royal_capture_state.attempt_move 2 2 2 3).1.game_over = true ∧
      (royal_capture_state.attempt_move 2 2 2 3).1.winner = some .White ∧
      ((royal_capture_state.attempt_move 2 2 2 3).1.select_piece 2 3 =
        ((royal_capture_state.attempt_move 2 2 2 3).1, .error .selectGameOver)) := by
  have h1 := (c4_royal_capture_ends_game).1 royal_capture_state 2 2 2 3
    (royal_capture_board.calculate_valid_moves 2 2 ⟨.ProductOwner, .White⟩)
    (royal_capture_board.move_piece 2 2 2 3 .White
      (royal_capture_board.calculate_valid_moves 2 2 ⟨.ProductOwner, .White⟩)).1
    ⟨.ProductOwner, .Black⟩ (royal_capture_state.attempt_move 2 2 2 3).1
    rfl rfl rfl rfl rfl
  exact ⟨h1.1, h1.2, (c4_royal_capture_ends_game).2.1 _ 2 3 h1.1⟩

/-- C9: after a Royal-capturing success the selection, the cached move list
and the current player are all left untouched (the switch and its clearing are
skipped), while a fresh (restarted) state has no selection and no cache. -/
theorem c9_royal_capture_keeps_selection :
    (∀ (gs : GameState) (f_r f_c t_r t_c : Nat) (cvm : List MoveDetail) (b' : Board)
      (q : Piece) (gs' : GameState),
      gs.game_over = false →
      gs.determine_valid_moves f_r f_c = .ok cvm →
      gs.board.move_piece f_r f_c t_r t_c gs.current_player cvm = (b', .ok (some q)) →
      q.piece_type = .ProductOwner →
      gs.attempt_move f_r f_c t_r t_c = (gs', .ok ()) →
      gs'.selected_square_coords = gs.selected_square_coords ∧
        gs'.available_moves_for_selected = gs.available_moves_for_selected ∧
        gs'.current_player = gs.current_player)
    ∧ (∀ w h : Nat, (GameState.new w h).selected_square_coords = none ∧
        (GameState.new w h).available_moves_for_selected = none) := by
  refine ⟨?_, fun w h => ⟨rfl, rfl⟩⟩
  intro gs f_r f_c t_r t_c cvm b' q gs' hgo hdet hmv hq hatt
  have hd := (attempt_move_ok_decompose gs f_r f_c t_r t_c cvm b' (some q) gs' hgo hdet hmv
    hatt).1 ⟨q, rfl, hq⟩
  rw [hd]
  exact ⟨rfl, rfl, rfl⟩

/-- C9 witness: the Royal capture keeps the previously selected square and its
cached move list in place. -/
theorem c9_royal_capture_keeps_selection_witness :
    (royal_capture_state_selected.attempt_move 2 2 2 3).1.selected_square_coords =
        some (2, 2) ∧
      (royal_capture_state_selected.attempt_move 2 2 2 3).1.available_moves_for_selected =
        some (royal_capture_board.calculate_valid_moves 2 2 ⟨.ProductOwner, .White⟩) := by
  have h1 := (c9_royal_capture_keeps_selection).1 royal_capture_state_selected 2 2 2 3
    (royal_capture_board.calculate_valid_moves 2 2 ⟨.ProductOwner, .White⟩)
    (royal_capture_board.move_piece 2 2 2 3 .White
      (royal_capture_board.calculate_valid_moves 2 2 ⟨.ProductOwner, .White⟩)).1
    ⟨.ProductOwner, .Black⟩ (royal_capture_state_selected.attempt_move 2 2 2 3).1
    rfl rfl rfl rfl rfl
  exact ⟨h1.1, h1.2.1⟩

lemma sum_update_two {α : Type} [DecidableEq α] (s : Finset α) (F G : α → Nat) (a b : α)
    (ha : a ∈ s) (hb : b ∈ s) (hab : a ≠ b)
    (hFG : ∀ x ∈ s, x ≠ a → x ≠ b → G x = F x) :
    s.sum G + F a + F b = s.sum F + G a + G b := by
  have hb' : b ∈ s.erase a := Finset.mem_erase.mpr ⟨Ne.symm hab, hb⟩
  have h1F : (s.erase a).sum F + F a = s.sum F := Finset.sum_erase_add s F ha
  have h2F : ((s.erase a).erase b).sum F + F b = (s.erase a).sum F :=
    Finset.sum_erase_add _ F hb'
  have h1G : (s.erase a).sum G + G a = s.sum G := Finset.sum_erase_add s G ha
  have h2G : ((s.erase a).erase b).sum G + G b = (s.erase a).sum G :=
    Finset.sum_erase_add _ G hb'
  have hcong : ((s.erase a).erase b).sum G = ((s.erase a).erase b).sum F := by
    apply Finset.sum_congr rfl
    intro x hx
    have hx1 := Finset.mem_erase.mp hx
    have hx2 := Finset.mem_erase.mp hx1.2
    exact hFG x hx2.2 hx2.1 hx1.1
  omega

lemma board_new_royal_indicator (w h : Nat) (hw : 6 ≤ w) (hh : 6 ≤ h) (col : PlayerColor)
    (r c : Nat) :
    (Board.new w h).get_piece r c = some ⟨.ProductOwner, col⟩ ↔
      (col = .White ∧ r = 0 ∧ c = 0) ∨ (col = .Black ∧ r = h - 1 ∧ c = w - 1) := by
  unfold Board.new Board.setup_pieces Board.get_piece
  dsimp only
  constructor
  · intro hcon
    split_ifs at hcon with h0 h1 h2 h3 h4 h5 h6 <;>
      first
      | exact Option.noConfusion hcon
      | (injection hcon with hp
         injection hp with hpt hcol
         first
         | exact PieceType.noConfusion hpt
         | exact Or.inr ⟨hcol.symm, h1.1, h1.2.1⟩
         | exact Or.inl ⟨hcol.symm, h4.1, h4.2.1⟩)
  · intro hdisj
    rcases hdisj with ⟨hcol, hr, hc⟩ | ⟨hcol, hr, hc⟩ <;> subst hcol <;> subst hr <;> subst hc
    · rw [if_pos ⟨by omega, by omega⟩, if_neg (by omega), if_neg (by omega), if_neg (by omega),
        if_pos ⟨rfl, rfl, by omega⟩]
    · rw [if_pos ⟨by omega, by omega⟩, if_pos ⟨rfl, rfl, by omega⟩]

lemma royalCount_new (w h : Nat) (hw : 6 ≤ w) (hh : 6 ≤ h) (col : PlayerColor) :
    royalCount (Board.new w h) col = 1 := by
  unfold royalCount
  have hwd : (Board.new w h).width = w := rfl
  have hht : (Board.new w h).height = h := rfl
  rw [hwd, hht]
  rcases col with _ | _
  · rw [Finset.sum_eq_single_of_mem ((0 : Nat), (0 : Nat))]
    · rw [if_pos ((board_new_royal_indicator w h hw hh .White 0 0).mpr
        (Or.inl ⟨rfl, rfl, rfl⟩))]
    · rw [Finset.mem_product]
      constructor <;> rw [Finset.mem_range] <;> omega
    · intro x hx hxne
      rw [if_neg]
      intro hcon
      rcases (board_new_royal_indicator w h hw hh .White x.1 x.2).mp hcon with
        ⟨_, h1, h2⟩ | ⟨hcol, _, _⟩
      · exact hxne (Prod.ext h1 h2)
      · cases hcol
  · rw [Finset.sum_eq_single_of_mem ((h - 1 : Nat), (w - 1 : Nat))]
    · rw [if_pos ((board_new_royal_indicator w h hw hh .Black (h - 1) (w - 1)).mpr
        (Or.inr ⟨rfl, rfl, rfl⟩))]
    · rw [Finset.mem_product]
      constructor <;> rw [Finset.mem_range] <;> omega
    · intro x hx hxne
      rw [if_neg]
      intro hcon
      rcases (board_new_royal_indicator w h hw hh .Black x.1 x.2).mp hcon with
        ⟨hcol, _, _⟩ | ⟨_, h1, h2⟩
      · cases hcol
      · exact hxne (Prod.ext h1 h2)

lemma get_piece_some_bounds (b : Board) (r c : Nat) (p : Piece)
    (h : b.get_piece r c = some p) : r < b.height ∧ c < b.width ∧ b.grid r c = some p := by
  unfold Board.get_piece at h
  split_ifs at h with hin
  exact ⟨hin.1, hin.2, h⟩

lemma move_piece_nil_not_ok (b : Board) (f_r f_c t_r t_c : Nat) (cur : PlayerColor)
    (b' : Board) (cap : Option Piece)
    (h : b.move_piece f_r f_c t_r t_c cur [] = (b', .ok cap)) : False := by
  unfold Board.move_piece at h
  rcases hg : b.get_piece f_r f_c with _ | p
  · rw [hg] at h
    injection h with _ he
    injection he
  · rw [hg] at h
    dsimp only at h
    split_ifs at h <;> (injection h with _ he; injection he)

lemma determine_ok_genuine (gs : GameState) (f_r f_c : Nat) (cvm : List MoveDetail)
    (hcache : ∀ l, gs.available_moves_for_selected = some l →
      ∃ r c p, gs.selected_square_coords = some (r, c) ∧ gs.board.get_piece r c = some p ∧
        p.color = gs.current_player ∧ l = gs.board.calculate_valid_moves r c p)
    (hdet : gs.determine_valid_moves f_r f_c = .ok cvm) :
    (∃ p, gs.board.get_piece f_r f_c = some p ∧ p.color = gs.current_player ∧
      cvm = gs.board.calculate_valid_moves f_r f_c p) ∨ cvm = [] := by
  unfold GameState.determine_valid_moves at hdet
  by_cases hsel : gs.selected_square_coords = some (f_r, f_c)
  · rw [if_pos hsel] at hdet
    injection hdet with hdet
    rcases havail : gs.available_moves_for_selected with _ | l
    · rw [havail] at hdet
      dsimp only at hdet
      rcases hg : gs.board.get_piece f_r f_c with _ | p
      · rw [hg] at hdet
        exact Or.inr hdet.symm
      · rw [hg] at hdet
        dsimp only at hdet
        by_cases hcol : p.color = gs.current_player
        · rw [if_pos hcol] at hdet
          exact Or.inl ⟨p, rfl, hcol, hdet.symm⟩
        · rw [if_neg hcol] at hdet
          exact Or.inr hdet.symm
    · rw [havail] at hdet
      dsimp only at hdet
      obtain ⟨r, c, p, hselrc, hget, hcol, hl⟩ := hcache l havail
      rw [hsel] at hselrc
      injection hselrc with hrc
      have hr : r = f_r := (congrArg Prod.fst hrc).symm
      have hc : c = f_c := (congrArg Prod.snd hrc).symm
      subst hdet
      refine Or.inl ⟨p, ?_, hcol, ?_⟩
      · rw [← hr, ← hc]
        exact hget
      · rw [← hr, ← hc]
        exact hl
  · rw [if_neg hsel] at hdet
    rcases hg : gs.board.get_piece f_r f_c with _ | p
    · rw [hg] at hdet
      injection hdet
    · rw [hg] at hdet
      dsimp only at hdet
      by_cases hcol : p.color = gs.current_player
      · rw [if_pos hcol] at hdet
        injection hdet with hdet
        exact Or.inl ⟨p, rfl, hcol, hdet.symm⟩
      · rw [if_neg hcol] at hdet
        injection hdet

lemma move_piece_ok_genuine (b : Board) (f_r f_c t_r t_c : Nat) (p : Piece) (b' : Board)
    (cap : Option Piece)
    (hget : b.get_piece f_r f_c = some p)
    (hmv : b.move_piece f_r f_c t_r t_c p.color (b.calculate_valid_moves f_r f_c p) =
      (b', .ok cap)) :
    b'.width = b.width ∧ b'.height = b.height ∧
    f_r < b.height ∧ f_c < b.width ∧ t_r < b.height ∧ t_c < b.width ∧
    ¬(f_r = t_r ∧ f_c = t_c) ∧
    b.grid f_r f_c = some p ∧
    (∀ r c, b'.grid r c =
      if r = t_r ∧ c = t_c then some p
      else if r = f_r ∧ c = f_c then none
      else b.grid r c) ∧
    ((cap = none ∧ b.grid t_r t_c = none) ∨
      (∃ q, cap = some q ∧ b.grid t_r t_c = some q ∧ q.color ≠ p.color)) := by
  obtain ⟨hfr, hfc, hgrid⟩ := get_piece_some_bounds b f_r f_c p hget
  obtain ⟨pt, pcol⟩ := p
  unfold Board.move_piece at hmv
  rw [hget] at hmv
  dsimp only at hmv
  rw [if_neg (show ¬(pcol ≠ pcol) from fun hne => hne rfl)] at hmv
  by_cases hft : f_r = t_r ∧ f_c = t_c
  · rw [if_pos hft] at hmv
    injection hmv with _ he
    injection he
  · rw [if_neg hft] at hmv
    rcases hfind : (b.calculate_valid_moves f_r f_c ⟨pt, pcol⟩).find?
        (fun m => m.to_r == t_r && m.to_c == t_c) with _ | mi
    · rw [hfind] at hmv
      injection hmv with _ he
      injection he
    · rw [hfind] at hmv
      dsimp only at hmv
      have hmem := List.mem_of_find?_eq_some hfind
      have hpred := List.find?_some hfind
      rw [Bool.and_eq_true, beq_iff_eq, beq_iff_eq] at hpred
      obtain ⟨hpr, hpc⟩ := hpred
      rcases pt with _ | _ | _
      · -- Developer: provably never a capture
        have props := mem_dev_moves_props b f_r f_c pcol mi hmem
        rw [props.1] at hmv
        rw [if_neg (by simp)] at hmv
        injection hmv with hb he
        injection he with he
        subst hb
        subst he
        refine ⟨rfl, rfl, hfr, hfc, ?_, ?_, hft, hgrid, fun r c => rfl, Or.inl ⟨rfl, ?_⟩⟩
        · rw [← hpr]
          exact props.2.2.2.1
        · rw [← hpc]
          exact props.2.2.2.2
        · have := props.2.2.1
          rw [hpr, hpc] at this
          exact this
      · -- Designer
        rw [calculate_valid_moves_designer] at hmem
        have props := mem_landing_filterMap_props l_moves b ⟨.Designer, pcol⟩ f_r f_c mi hmem
        cases hcap : mi.is_capture
        · rw [hcap] at hmv
          rw [if_neg (by simp)] at hmv
          injection hmv with hb he
          injection he with he
          subst hb
          subst he
          refine ⟨rfl, rfl, hfr, hfc, ?_, ?_, hft, hgrid, fun r c => rfl, Or.inl ⟨rfl, ?_⟩⟩
          · rw [← hpr]
            exact props.2.1
          · rw [← hpc]
            exact props.2.2.1
          · have := props.2.2.2.2 hcap
            rw [hpr, hpc] at this
            exact this
        · rw [hcap] at hmv
          rw [if_pos rfl] at hmv
          dsimp only at hmv
          injection hmv with hb he
          injection he with he
          subst hb
          subst he
          obtain ⟨q, hq, hqcol⟩ := props.2.2.2.1 hcap
          rw [hpr, hpc] at hq
          have hb1 : (b.setSquare f_r f_c none).grid t_r t_c = b.grid t_r t_c := by
            simp only [Board.setSquare]
            rw [if_neg (fun hc => hft ⟨hc.1.symm, hc.2.symm⟩)]
          refine ⟨rfl, rfl, hfr, hfc, ?_, ?_, hft, hgrid, ?_, Or.inr ⟨q, ?_, hq, hqcol⟩⟩
          · rw [← hpr]
            exact props.2.1
          · rw [← hpc]
            exact props.2.2.1
          · intro r c
            simp only [Board.setSquare]
            split_ifs <;> rfl
          · rw [hb1, hq]
      · -- ProductOwner
        rw [calculate_valid_moves_po] at hmem
        have props := mem_landing_filterMap_props dirs8 b ⟨.ProductOwner, pcol⟩ f_r f_c mi hmem
        cases hcap : mi.is_capture
        · rw [hcap] at hmv
          rw [if_neg (by simp)] at hmv
          injection hmv with hb he
          injection he with he
          subst hb
          subst he
          refine ⟨rfl, rfl, hfr, hfc, ?_, ?_, hft, hgrid, fun r c => rfl, Or.inl ⟨rfl, ?_⟩⟩
          · rw [← hpr]
            exact props.2.1
          · rw [← hpc]
            exact props.2.2.1
          · have := props.2.2.2.2 hcap
            rw [hpr, hpc] at this
            exact this
        · rw [hcap] at hmv
          rw [if_pos rfl] at hmv
          dsimp only at hmv
          injection hmv with hb he
          injection he with he
          subst hb
          subst he
          obtain ⟨q, hq, hqcol⟩ := props.2.2.2.1 hcap
          rw [hpr, hpc] at hq
          have hb1 : (b.setSquare f_r f_c none).grid t_r t_c = b.grid t_r t_c := by
            simp only [Board.setSquare]
            rw [if_neg (fun hc => hft ⟨hc.1.symm, hc.2.symm⟩)]
          refine ⟨rfl, rfl, hfr, hfc, ?_, ?_, hft, hgrid, ?_, Or.inr ⟨q, ?_, hq, hqcol⟩⟩
          · rw [← hpr]
            exact props.2.1
          · rw [← hpc]
            exact props.2.2.1
          · intro r c
            simp only [Board.setSquare]
            split_ifs <;> rfl
          · rw [hb1, hq]

lemma royalCount_move_preserved (b b' : Board) (f_r f_c t_r t_c : Nat) (p : Piece)
    (cap : Option Piece) (col : PlayerColor)
    (hw : b'.width = b.width) (hh : b'.height = b.height)
    (hfr : f_r < b.height) (hfc : f_c < b.width) (htr : t_r < b.height) (htc : t_c < b.width)
    (hft : ¬(f_r = t_r ∧ f_c = t_c))
    (hgrid : b.grid f_r f_c = some p)
    (hpt : ∀ r c, b'.grid r c = if r = t_r ∧ c = t_c then some p
      else if r = f_r ∧ c = f_c then none else b.grid r c)
    (hdest : (cap = none ∧ b.grid t_r t_c = none) ∨
      (∃ q, cap = some q ∧ b.grid t_r t_c = some q ∧ q.color ≠ p.color))
    (hnr : ∀ q, cap = some q → q.piece_type ≠ .ProductOwner) :
    royalCount b' col = royalCount b col := by
  unfold royalCount
  rw [hw, hh]
  have hma : (f_r, f_c) ∈ Finset.range b.height ×ˢ Finset.range b.width := by
    rw [Finset.mem_product]
    exact ⟨Finset.mem_range.mpr hfr, Finset.mem_range.mpr hfc⟩
  have hmb : (t_r, t_c) ∈ Finset.range b.height ×ˢ Finset.range b.width := by
    rw [Finset.mem_product]
    exact ⟨Finset.mem_range.mpr htr, Finset.mem_range.mpr htc⟩
  have hne : ((f_r, f_c) : Nat × Nat) ≠ (t_r, t_c) := by
    intro heq
    exact hft ⟨congrArg Prod.fst heq, congrArg Prod.snd heq⟩
  have hFG : ∀ x ∈ Finset.range b.height ×ˢ Finset.range b.width,
      x ≠ (f_r, f_c) → x ≠ (t_r, t_c) →
      (fun rc : Nat × Nat =>
        if b'.get_piece rc.1 rc.2 = some ⟨.ProductOwner, col⟩ then 1 else 0) x =
      (fun rc : Nat × Nat =>
        if b.get_piece rc.1 rc.2 = some ⟨.ProductOwner, col⟩ then 1 else 0) x := by
    intro x hx hxa hxb
    obtain ⟨hx1, hx2⟩ := Finset.mem_product.mp hx
    rw [Finset.mem_range] at hx1 hx2
    have hbx : b'.get_piece x.1 x.2 = b.get_piece x.1 x.2 := by
      unfold Board.get_piece
      rw [hw, hh]
      by_cases hin : x.1 < b.height ∧ x.2 < b.width
      · rw [if_pos hin, if_pos hin, hpt x.1 x.2,
          if_neg (fun hc => hxb (Prod.ext hc.1 hc.2)),
          if_neg (fun hc => hxa (Prod.ext hc.1 hc.2))]
      · rw [if_neg hin, if_neg hin]
    dsimp only
    rw [hbx]
  have key := sum_update_two (Finset.range b.height ×ˢ Finset.range b.width)
    (fun rc : Nat × Nat =>
      if b.get_piece rc.1 rc.2 = some ⟨.ProductOwner, col⟩ then 1 else 0)
    (fun rc : Nat × Nat =>
      if b'.get_piece rc.1 rc.2 = some ⟨.ProductOwner, col⟩ then 1 else 0)
    (f_r, f_c) (t_r, t_c) hma hmb hne hFG
  dsimp only at key
  have hgf : b.get_piece f_r f_c = some p := by
    unfold Board.get_piece
    rw [if_pos ⟨hfr, hfc⟩]
    exact hgrid
  have hgf' : b'.get_piece f_r f_c = none := by
    unfold Board.get_piece
    rw [hw, hh, if_pos ⟨hfr, hfc⟩, hpt f_r f_c, if_neg hft, if_pos ⟨rfl, rfl⟩]
  have hgt' : b'.get_piece t_r t_c = some p := by
    unfold Board.get_piece
    rw [hw, hh, if_pos ⟨htr, htc⟩, hpt t_r t_c, if_pos ⟨rfl, rfl⟩]
  have hgt : b.get_piece t_r t_c = b.grid t_r t_c := by
    unfold Board.get_piece
    rw [if_pos ⟨htr, htc⟩]
  rw [hgf, hgf', hgt', hgt] at key
  have hz1 : (if (none : Option Piece) = some ⟨.ProductOwner, col⟩ then 1 else 0) = 0 :=
    if_neg (fun hc => Option.noConfusion hc)
  have hz2 : (if b.grid t_r t_c = some ⟨.ProductOwner, col⟩ then 1 else 0) = 0 := by
    rcases hdest with ⟨_, hnone⟩ | ⟨q, hcap, hsome, _⟩
    · rw [hnone]
      exact hz1
    · rw [hsome]
      refine if_neg (fun hc => ?_)
      injection hc with hc
      exact hnr q hcap (by rw [hc])
  rw [hz1, hz2] at key
  omega


lemma stateInv_new (w h : Nat) (hw : 6 ≤ w) (hh : 6 ≤ h) :
    StateInv w h (GameState.new w h) :=
  ⟨rfl, rfl, fun _ => ⟨royalCount_new w h hw hh .White, royalCount_new w h hw hh .Black,
    fun l hl => by cases hl⟩⟩

lemma attempt_move_ok_components (gs : GameState) (f_r f_c t_r t_c : Nat) (gs' : GameState)
    (hatt : gs.attempt_move f_r f_c t_r t_c = (gs', .ok ())) :
    gs.game_over = false ∧ ∃ cvm b' cap,
      gs.determine_valid_moves f_r f_c = .ok cvm ∧
      gs.board.move_piece f_r f_c t_r t_c gs.current_player cvm = (b', .ok cap) := by
  by_cases hgo : gs.game_over
  · unfold GameState.attempt_move at hatt
    rw [if_pos hgo] at hatt
    injection hatt with _ he
    injection he
  · rw [Bool.not_eq_true] at hgo
    refine ⟨hgo, ?_⟩
    unfold GameState.attempt_move at hatt
    rw [if_neg (by simp [hgo])] at hatt
    rcases hdet : gs.determine_valid_moves f_r f_c with e | cvm
    · rw [hdet] at hatt
      dsimp only at hatt
      injection hatt with _ he
      injection he
    · rw [hdet] at hatt
      dsimp only at hatt
      rcases hmv : gs.board.move_piece f_r f_c t_r t_c gs.current_player cvm with ⟨b', res⟩
      rcases res with e | cap
      · rw [hmv] at hatt
        dsimp only at hatt
        injection hatt with _ he
        injection he
      · exact ⟨cvm, b', cap, rfl, hmv⟩

lemma stateInv_select (w h : Nat) (gs gs' : GameState) (r c : Nat)
    (hinv : StateInv w h gs) (hsel : gs.select_piece r c = (gs', .ok ())) :
    StateInv w h gs' := by
  unfold GameState.select_piece at hsel
  by_cases hgo : gs.game_over
  · rw [if_pos hgo] at hsel
    injection hsel with _ he
    injection he
  · rw [if_neg hgo] at hsel
    rw [Bool.not_eq_true] at hgo
    rcases hg : gs.board.get_piece r c with _ | p
    · rw [hg] at hsel
      injection hsel with _ he
      injection he
    · rw [hg] at hsel
      dsimp only at hsel
      by_cases hcol : p.color = gs.current_player
      · rw [if_pos hcol] at hsel
        injection hsel with hgs _
        obtain ⟨counts1, counts2, _⟩ := hinv.2.2 hgo
        rw [← hgs]
        refine ⟨hinv.1, hinv.2.1, fun _ => ⟨counts1, counts2, fun l hl => ?_⟩⟩
        injection hl with hl
        exact ⟨r, c, p, rfl, hg, hcol, hl.symm⟩
      · rw [if_neg hcol] at hsel
        injection hsel with _ he
        injection he

lemma attempt_ok_royalCounts (w h : Nat) (gs : GameState) (f_r f_c t_r t_c : Nat)
    (cvm : List MoveDetail) (b' : Board) (cap : Option Piece)
    (hinv : StateInv w h gs) (hgo : gs.game_over = false)
    (hdet : gs.determine_valid_moves f_r f_c = .ok cvm)
    (hmv : gs.board.move_piece f_r f_c t_r t_c gs.current_player cvm = (b', .ok cap))
    (hnr : ∀ q, cap = some q → q.piece_type ≠ .ProductOwner) :
    royalCount b' .White = 1 ∧ royalCount b' .Black = 1 ∧
      b'.width = gs.board.width ∧ b'.height = gs.board.height := by
  obtain ⟨counts1, counts2, hcache⟩ := hinv.2.2 hgo
  rcases determine_ok_genuine gs f_r f_c cvm hcache hdet with ⟨p, hget, hcol, hcvm⟩ | hnil
  · rw [hcvm, ← hcol] at hmv
    obtain ⟨hw', hh', hfr, hfc, htr, htc, hft, hgrid, hpt, hdest⟩ :=
      move_piece_ok_genuine gs.board f_r f_c t_r t_c p b' cap hget hmv
    have hpres := fun col => royalCount_move_preserved gs.board b' f_r f_c t_r t_c p cap col
      hw' hh' hfr hfc htr htc hft hgrid hpt hdest hnr
    exact ⟨(hpres .White).trans counts1, (hpres .Black).trans counts2, hw', hh'⟩
  · rw [hnil] at hmv
    exact (move_piece_nil_not_ok _ _ _ _ _ _ _ _ hmv).elim

lemma stateInv_attempt (w h : Nat) (gs gs' : GameState) (f_r f_c t_r t_c : Nat)
    (hinv : StateInv w h gs) (hatt : gs.attempt_move f_r f_c t_r t_c = (gs', .ok ())) :
    StateInv w h gs' := by
  obtain ⟨hgo, cvm, b', cap, hdet, hmv⟩ := attempt_move_ok_components gs f_r f_c t_r t_c gs'
    hatt
  have hdec := attempt_move_ok_decompose gs f_r f_c t_r t_c cvm b' cap gs' hgo hdet hmv hatt
  by_cases hroyal : ∃ q, cap = some q ∧ q.piece_type = .ProductOwner
  · rw [hdec.1 hroyal]
    obtain ⟨counts1, counts2, hcache⟩ := hinv.2.2 hgo
    rcases determine_ok_genuine gs f_r f_c cvm hcache hdet with ⟨p, hget, hcol, hcvm⟩ | hnil
    · rw [hcvm, ← hcol] at hmv
      obtain ⟨hw', hh', _⟩ := move_piece_ok_genuine gs.board f_r f_c t_r t_c p b' cap hget hmv
      exact ⟨hw'.trans hinv.1, hh'.trans hinv.2.1, fun hcontra => by cases hcontra⟩
    · rw [hnil] at hmv
      exact (move_piece_nil_not_ok _ _ _ _ _ _ _ _ hmv).elim
  · have hnr : ∀ q, cap = some q → q.piece_type ≠ .ProductOwner :=
      fun q hq hpt => hroyal ⟨q, hq, hpt⟩
    obtain ⟨c1, c2, hw', hh'⟩ := attempt_ok_royalCounts w h gs f_r f_c t_r t_c cvm b' cap
      hinv hgo hdet hmv hnr
    rw [hdec.2 hnr]
    exact ⟨hw'.trans hinv.1, hh'.trans hinv.2.1, fun _ => ⟨c1, c2, fun l hl => by cases hl⟩⟩

lemma stateInv_of_reachable (w h : Nat) (gs : GameState) (hw : 6 ≤ w) (hh : 6 ≤ h)
    (hr : Reachable w h gs) : StateInv w h gs := by
  induction hr with
  | init => exact stateInv_new w h hw hh
  | select_ok gs r c gs' _ hsel ih => exact stateInv_select w h gs gs' r c ih hsel
  | move_ok gs f_r f_c t_r t_c gs' _ hatt ih =>
    exact stateInv_attempt w h gs gs' f_r f_c t_r t_c ih hatt

/-- C5: from any reachable state, a successful attemptMove that does not
capture a Royal leaves exactly one Royal of each color on the board, switches
the current player to the mover's opponent, and clears the selection and the
cached move list. -/
theorem c5_nonroyal_move_invariants (w h : Nat) (gs gs' : GameState)
    (f_r f_c t_r t_c : Nat) (cvm : List MoveDetail) (b' : Board) (cap : Option Piece)
    (hw1 : 6 ≤ w) (hw2 : w ≤ 12) (hh1 : 6 ≤ h) (hh2 : h ≤ 12)
    (hreach : Reachable w h gs)
    (hdet : gs.determine_valid_moves f_r f_c = .ok cvm)
    (hmv : gs.board.move_piece f_r f_c t_r t_c gs.current_player cvm = (b', .ok cap))
    (hnr : ∀ q, cap = some q → q.piece_type ≠ .ProductOwner)
    (hatt : gs.attempt_move f_r f_c t_r t_c = (gs', .ok ())) :
    royalCount gs'.board .White = 1 ∧ royalCount gs'.board .Black = 1 ∧
      gs'.current_player = gs.current_player.opponent ∧
      gs'.selected_square_coords = none ∧
      gs'.available_moves_for_selected = none := by
  obtain ⟨hgo, _⟩ := attempt_move_ok_components gs f_r f_c t_r t_c gs' hatt
  have hinv := stateInv_of_reachable w h gs hw1 hh1 hreach
  have hdec := attempt_move_ok_decompose gs f_r f_c t_r t_c cvm b' cap gs' hgo hdet hmv hatt
  obtain ⟨c1, c2, _, _⟩ := attempt_ok_royalCounts w h gs f_r f_c t_r t_c cvm b' cap
    hinv hgo hdet hmv hnr
  rw [hdec.2 hnr]
  exact ⟨c1, c2, rfl, rfl, rfl⟩

/-- C5 witness: in the fresh 6 by 6 game, White's Royal steps from A1 to the
empty B2; both Royals remain, the turn passes to Black and the selection and
cache are cleared. -/
theorem c5_nonroyal_move_invariants_witness :
    royalCount ((GameState.new 6 6).attempt_move 0 0 1 1).1.board .White = 1 ∧
      royalCount ((GameState.new 6 6).attempt_move 0 0 1 1).1.board .Black = 1 ∧
      ((GameState.new 6 6).attempt_move 0 0 1 1).1.current_player = .Black ∧
      ((GameState.new 6 6).attempt_move 0 0 1 1).1.selected_square_coords = none ∧
      ((GameState.new 6 6).attempt_move 0 0 1 1).1.available_moves_for_selected = none := by
  have h := c5_nonroyal_move_invariants 6 6 (GameState.new 6 6)
    ((GameState.new 6 6).attempt_move 0 0 1 1).1 0 0 1 1
    ((GameState.new 6 6).board.calculate_valid_moves 0 0 ⟨.ProductOwner, .White⟩)
    ((GameState.new 6 6).board.move_piece 0 0 1 1 .White
      ((GameState.new 6 6).board.calculate_valid_moves 0 0 ⟨.ProductOwner, .White⟩)).1
    none (by decide) (by decide) (by decide) (by decide)
    Reachable.init rfl rfl (fun q hq => by cases hq) rfl
  exact ⟨h.1, h.2.1, h.2.2.1, h.2.2.2.1, h.2.2.2.2⟩
